import Mathlib

/-!
Verification of the SQL live-suggestion service core
(`app/services/metadata_cache.py`, `app/services/fuzzy_matcher.py`,
`app/services/validator.py`, `app/routers/suggest.py`).

The Python code is shallowly embedded as follows.

* Python strings are Lean `String`s; `str.lower` is modelled by `pyLower`
  (character-wise ASCII case folding, exactly the fold Lean's `Char.toLower`
  implements) and `str.strip` by `pyStrip` (dropping the whitespace
  characters space, tab, CR, LF from both ends).
* Python `set` objects are modelled as duplicate-free insertion-ordered
  lists (`addToSet`); Python `dict`s as association lists with
  replace-in-place-or-append assignment (`dictSet`), preserving both lookup
  semantics and item iteration order of CPython dicts.  Python iterates
  `set`s in an unspecified order; the model fixes insertion order.
* The pickled raw metadata is modelled by the dynamic value type `Dyn`
  (restricted to string dict keys); `_build_from_raw_data` is embedded
  twice with shared per-statement step functions: `buildFromRawDyn` over
  `Dyn` (fallible, errors carry the mutated state, mirroring a Python
  exception escaping from a method that mutates `self` in place), and
  `buildRaw` over the well-shaped raw type `Raw`.  The two agree on
  well-shaped data (`buildFromRawDyn_schemasToDyn`).
* `rapidfuzz.process.extract(query, candidates, scorer, limit,
  score_cutoff)` is external library code; it is modelled by `extract`,
  parameterised over an arbitrary integer scorer, following its documented
  contract: score every candidate, drop scores strictly below the cutoff,
  sort by descending score with ties in candidate input order, truncate to
  `limit`.  Scores are `Nat` (the service converts them with `int(...)`).
-/

/-! ## Python string primitives -/

/-- The whitespace characters stripped by the model of `str.strip`. -/
def isSpaceChar (c : Char) : Bool :=
  c.toNat = 32 || c.toNat = 9 || c.toNat = 13 || c.toNat = 10

/-- Model of Python `str.lower` (ASCII case folding, character-wise). -/
def pyLower (s : String) : String :=
  String.mk (s.data.map Char.toLower)

/-- Model of Python `str.strip`: drop whitespace from both ends. -/
def pyStrip (s : String) : String :=
  String.mk (((s.data.dropWhile isSpaceChar).reverse.dropWhile isSpaceChar).reverse)

/-- `search_term.lower().strip()` as performed by the validator and the
fuzzy matcher. -/
def pyNormalize (s : String) : String :=
  pyStrip (pyLower s)

/-- Python truthiness of a `str | None` value: `None` and `""` are falsy.
Used to model `if schema:`, `if exact_match:`, `if original_name:`. -/
def truthy : Option String → Bool
  | none => false
  | some s => decide (s ≠ "")

/-- The string carried by a truthy `str | None` value. -/
def optVal (o : Option String) : String :=
  o.getD ""

/-! ## Containers: Python dict / set models -/

/-- First-match association-list lookup (Python `dict.get` / `d[k]`). -/
def lookupKey {κ β : Type} [DecidableEq κ] : List (κ × β) → κ → Option β
  | [], _ => none
  | (k, v) :: rest, key => if k = key then some v else lookupKey rest key

/-- Python `d[k] = v`: replace the value in place if the key is present
(keeping its original position, as CPython dicts do), else append. -/
def dictSet {κ β : Type} [DecidableEq κ] (m : List (κ × β)) (key : κ) (v : β) : List (κ × β) :=
  if (lookupKey m key).isSome then
    m.map (fun p => if p.1 = key then (key, v) else p)
  else
    m ++ [(key, v)]

/-- In-place mutation of the container stored at `key` (Python
`d[k].add(x)` / `d[k].append(x)`).  The build only applies it to keys it
has just created, so the no-op on a missing key is never exercised. -/
def dictUpdate {κ β : Type} [DecidableEq κ] (m : List (κ × β)) (key : κ) (f : β → β) : List (κ × β) :=
  m.map (fun p => if p.1 = key then (p.1, f p.2) else p)

/-- Python `set.add`: sets are modelled as duplicate-free lists. -/
def addToSet (s : List String) (x : String) : List String :=
  if x ∈ s then s else s ++ [x]

/-! ## Raw pickled metadata -/

/-- Dynamic values, modelling what `pickle.load` may return (restricted to
string dictionary keys). -/
inductive Dyn where
  | str (s : String)
  | dict (entries : List (String × Dyn))
  | pylist (elems : List Dyn)
  | pynone

/-- Python `for x in v`: lists yield their elements, strings their
characters (as one-character strings), dicts their keys; anything else
raises. -/
def iterItems : Dyn → Except String (List Dyn)
  | .pylist elems => .ok elems
  | .str s => .ok (s.data.map (fun c => .str (String.mk [c])))
  | .dict entries => .ok (entries.map (fun p => .str p.1))
  | .pynone => .error "TypeError: object is not iterable"

/-- The well-shaped raw snapshot: schema name, then per schema the list of
`(table name, column names)` entries, mirroring
`schemas: dict[str, dict[str, list[str]]]` with the intermediate
`{"tables": ...}` wrapper elided. -/
abbrev Raw := List (String × List (String × List String))

/-- Re-wrap a well-shaped snapshot as the dynamic value the pickle holds
under the `"schemas"` key. -/
def schemasToDyn (raw : Raw) : Dyn :=
  .dict (raw.map (fun sc =>
    (sc.1, .dict [("tables", .dict (sc.2.map (fun tc =>
      (tc.1, .pylist (tc.2.map .str)))))])))

/-! ## EnvironmentCache state

`IndexState` holds exactly the fields `_build_from_raw_data` /
`_reset_structures` touch; `FullCache` adds the fields only `load`
touches (`environment`, `loaded_at`, `is_loaded`), with `loaded_at`
abstracted to a `Nat` tick. -/

structure IndexState where
  exported_at : Option Dyn
  schemas : Dyn
  schemas_set : List String
  tables_set : List String
  columns_set : List String
  schemas_list : List String
  tables_list : List String
  columns_list : List String
  schemas_map : List (String × String)
  tables_map : List (String × String)
  columns_map : List (String × String)
  tables_by_schema : List (String × List String)
  tables_list_by_schema : List (String × List String)
  columns_by_table : List ((String × String) × List String)
  columns_list_by_table : List ((String × String) × List String)
  qualified_tables_list : List String
  qualified_tables_map : List (String × String)
  qualified_columns_list : List String
  qualified_columns_map : List (String × String)

/-- The state after `_reset_structures` (which leaves `exported_at`
alone; the build assigns `exported_at` just before resetting, so the
post-reset state is this record with `exported_at` and `schemas`
overridden). -/
def emptyIndex : IndexState where
  exported_at := none
  schemas := .dict []
  schemas_set := []
  tables_set := []
  columns_set := []
  schemas_list := []
  tables_list := []
  columns_list := []
  schemas_map := []
  tables_map := []
  columns_map := []
  tables_by_schema := []
  tables_list_by_schema := []
  columns_by_table := []
  columns_list_by_table := []
  qualified_tables_list := []
  qualified_tables_map := []
  qualified_columns_list := []
  qualified_columns_map := []

/-! ## The build (`_build_from_raw_data` loop bodies) -/

/-- Schema-level statements of the build loop (lines 87-96 of
`metadata_cache.py`): register the schema and (re)initialise its
per-schema lookups. -/
def schemaStepPre (st : IndexState) (schema_name : String) : IndexState :=
  let schema_lower := pyLower schema_name
  { st with
    schemas_set := addToSet st.schemas_set schema_lower
    schemas_list := st.schemas_list ++ [schema_lower]
    schemas_map := dictSet st.schemas_map schema_lower schema_name
    tables_by_schema := dictSet st.tables_by_schema schema_lower []
    tables_list_by_schema := dictSet st.tables_list_by_schema schema_lower [] }

/-- Table-level statements of the build loop (lines 101-122): global and
per-schema registration, (re)initialising the per-(schema, table) column
lookups, and the qualified `schema.table` pair. -/
def tableStepPre (st : IndexState) (schema_name table_name : String) : IndexState :=
  let schema_lower := pyLower schema_name
  let table_lower := pyLower table_name
  let table_key := (schema_lower, table_lower)
  let qualified_table := schema_name ++ "." ++ table_name
  let qualified_table_lower := pyLower qualified_table
  { st with
    tables_set := addToSet st.tables_set table_lower
    tables_list :=
      if (lookupKey st.tables_map table_lower).isSome then st.tables_list
      else st.tables_list ++ [table_lower]
    tables_map :=
      if (lookupKey st.tables_map table_lower).isSome then st.tables_map
      else dictSet st.tables_map table_lower table_name
    tables_by_schema := dictUpdate st.tables_by_schema schema_lower (fun s => addToSet s table_lower)
    tables_list_by_schema := dictUpdate st.tables_list_by_schema schema_lower (fun l => l ++ [table_lower])
    columns_by_table := dictSet st.columns_by_table table_key []
    columns_list_by_table := dictSet st.columns_list_by_table table_key []
    qualified_tables_list := st.qualified_tables_list ++ [qualified_table_lower]
    qualified_tables_map := dictSet st.qualified_tables_map qualified_table_lower qualified_table }

/-- Column-level statements of the build loop (lines 125-141). -/
def colStep (st : IndexState) (schema_name table_name column_name : String) : IndexState :=
  let column_lower := pyLower column_name
  let table_key := (pyLower schema_name, pyLower table_name)
  let qualified_column := schema_name ++ "." ++ table_name ++ "." ++ column_name
  let qualified_column_lower := pyLower qualified_column
  { st with
    columns_set := addToSet st.columns_set column_lower
    columns_list :=
      if (lookupKey st.columns_map column_lower).isSome then st.columns_list
      else st.columns_list ++ [column_lower]
    columns_map :=
      if (lookupKey st.columns_map column_lower).isSome then st.columns_map
      else dictSet st.columns_map column_lower column_name
    columns_by_table := dictUpdate st.columns_by_table table_key (fun s => addToSet s column_lower)
    columns_list_by_table := dictUpdate st.columns_list_by_table table_key (fun l => l ++ [column_lower])
    qualified_columns_list := st.qualified_columns_list ++ [qualified_column_lower]
    qualified_columns_map := dictSet st.qualified_columns_map qualified_column_lower qualified_column }

def processColumns (st : IndexState) (schema_name table_name : String) (cols : List String) : IndexState :=
  cols.foldl (fun st c => colStep st schema_name table_name c) st

def processTable (st : IndexState) (schema_name : String) (tc : String × List String) : IndexState :=
  processColumns (tableStepPre st schema_name tc.1) schema_name tc.1 tc.2

def processTables (st : IndexState) (schema_name : String) (tbls : List (String × List String)) : IndexState :=
  tbls.foldl (fun st tc => processTable st schema_name tc) st

def processSchema (st : IndexState) (sc : String × List (String × List String)) : IndexState :=
  processTables (schemaStepPre st sc.1) sc.1 sc.2

def processSchemas (st : IndexState) (raw : Raw) : IndexState :=
  raw.foldl processSchema st

/-- `_build_from_raw_data` on a well-shaped snapshot: reset, store the raw
data, then run the nested loops. -/
def buildRaw (raw : Raw) : IndexState :=
  processSchemas { emptyIndex with schemas := schemasToDyn raw } raw

/-- Column loop over dynamic values: a non-string column name raises after
the earlier columns were already registered. -/
def processColumnsDyn (st : IndexState) (schema_name table_name : String) :
    List Dyn → Except (String × IndexState) IndexState
  | [] => .ok st
  | .str c :: rest => processColumnsDyn (colStep st schema_name table_name c) schema_name table_name rest
  | _ :: _ => .error ("AttributeError: lower", st)

/-- Table loop over dynamic values: the table-level statements run before
the column iteration can raise. -/
def processTablesDyn (st : IndexState) (schema_name : String) :
    List (String × Dyn) → Except (String × IndexState) IndexState
  | [] => .ok st
  | (table_name, columns) :: rest =>
    let st1 := tableStepPre st schema_name table_name
    match iterItems columns with
    | .error msg => .error (msg, st1)
    | .ok items =>
      match processColumnsDyn st1 schema_name table_name items with
      | .error e => .error e
      | .ok st2 => processTablesDyn st2 schema_name rest

/-- Schema loop over dynamic values: the schema-level statements run
before `schema_data.get("tables")` or `tables_data.items()` can raise. -/
def processSchemasDyn (st : IndexState) :
    List (String × Dyn) → Except (String × IndexState) IndexState
  | [] => .ok st
  | (schema_name, schema_data) :: rest =>
    let st1 := schemaStepPre st schema_name
    match schema_data with
    | .dict entries =>
      match (lookupKey entries "tables").getD (.dict []) with
      | .dict tentries =>
        match processTablesDyn st1 schema_name tentries with
        | .error e => .error e
        | .ok st2 => processSchemasDyn st2 rest
      | _ => .error ("AttributeError: items", st1)
    | _ => .error ("AttributeError: get", st1)

/-- `_build_from_raw_data` on dynamic data.  Statement order of the
source: `exported_at` is assigned, then everything is reset, then
`schemas` is stored, and only then does iteration (which may raise)
begin — so a failure during iteration leaves the freshly reset,
partially rebuilt state behind. -/
def buildFromRawDyn (st : IndexState) (data : Dyn) : Except (String × IndexState) IndexState :=
  match data with
  | .dict entries =>
    let exported := lookupKey entries "exported_at"
    let raw_schemas := (lookupKey entries "schemas").getD (.dict [])
    let st1 := { emptyIndex with exported_at := exported, schemas := raw_schemas }
    match raw_schemas with
    | .dict sentries => processSchemasDyn st1 sentries
    | _ => .error ("AttributeError: items", st1)
  | _ => .error ("AttributeError: get", st)

/-- The whole `EnvironmentCache`, adding the fields only `load` writes. -/
structure FullCache where
  idx : IndexState
  environment : String
  loaded_at : Option Nat
  is_loaded : Bool

/-- `EnvironmentCache.load` after the pickle has been read: assign
`environment`, build (possibly raising), then stamp `loaded_at` and
`is_loaded`.  On an error the mutated cache is carried in the error. -/
def loadModel (c : FullCache) (data : Dyn) (env : String) (now : Nat) :
    Except (String × FullCache) FullCache :=
  let c1 := { c with environment := env }
  match buildFromRawDyn c1.idx data with
  | .ok st => .ok { c1 with idx := st, loaded_at := some now, is_loaded := true }
  | .error (msg, st) => .error (msg, { c1 with idx := st })

/-! ## EnvironmentCache accessors -/

def schema_exists (st : IndexState) (name : String) : Bool :=
  decide (pyLower name ∈ st.schemas_set)

def table_exists (st : IndexState) (name : String) (schema : Option String) : Bool :=
  let table_lower := pyLower name
  if truthy schema then
    decide (table_lower ∈ (lookupKey st.tables_by_schema (pyLower (optVal schema))).getD [])
  else
    decide (table_lower ∈ st.tables_set)

def column_exists (st : IndexState) (name : String) (schema table : Option String) : Bool :=
  let column_lower := pyLower name
  if truthy schema && truthy table then
    decide (column_lower ∈
      (lookupKey st.columns_by_table (pyLower (optVal schema), pyLower (optVal table))).getD [])
  else
    decide (column_lower ∈ st.columns_set)

def get_original_schema (st : IndexState) (normalized : String) : Option String :=
  lookupKey st.schemas_map normalized

def get_original_table (st : IndexState) (normalized : String) : Option String :=
  lookupKey st.tables_map normalized

def get_original_column (st : IndexState) (normalized : String) : Option String :=
  lookupKey st.columns_map normalized

def get_candidates_for_scope (st : IndexState) (scope : String) (schema table : Option String) :
    List String :=
  if scope = "schema" then st.schemas_list
  else if scope = "table" then
    if truthy schema then (lookupKey st.tables_list_by_schema (pyLower (optVal schema))).getD []
    else st.tables_list
  else if scope = "column" then
    if truthy schema && truthy table then
      (lookupKey st.columns_list_by_table (pyLower (optVal schema), pyLower (optVal table))).getD []
    else st.columns_list
  else []

def get_original_for_scope (st : IndexState) (scope : String) (normalized : String) :
    Option String :=
  if scope = "schema" then get_original_schema st normalized
  else if scope = "table" then get_original_table st normalized
  else if scope = "column" then get_original_column st normalized
  else none

/-- `get_searchable_candidates_for_scope`: `(search_key, qualified_name)`
pairs; the qualified name is assembled from the normalised dict keys. -/
def get_searchable_candidates_for_scope (st : IndexState) (scope : String)
    (schema table : Option String) : List (String × String) :=
  if scope = "schema" then st.schemas_list.map (fun name => (name, name))
  else if scope = "table" then
    st.tables_by_schema.foldl
      (fun results p =>
        if truthy schema && decide (pyLower (optVal schema) ≠ p.1) then results
        else results ++ p.2.map (fun table_name => (table_name, p.1 ++ "." ++ table_name)))
      []
  else if scope = "column" then
    st.columns_by_table.foldl
      (fun results p =>
        if truthy schema && decide (pyLower (optVal schema) ≠ p.1.1) then results
        else if truthy table && decide (pyLower (optVal table) ≠ p.1.2) then results
        else results ++ p.2.map (fun column_name =>
          (column_name, p.1.1 ++ "." ++ p.1.2 ++ "." ++ column_name)))
      []
  else []

def get_original_qualified (st : IndexState) (scope : String) (normalized : String) :
    Option String :=
  if scope = "schema" then lookupKey st.schemas_map normalized
  else if scope = "table" then lookupKey st.qualified_tables_map normalized
  else if scope = "column" then lookupKey st.qualified_columns_map normalized
  else none

/-! ## Fuzzy matcher -/

/-- An integer similarity scorer (the model's stand-in for
`fuzz.WRatio`). -/
abbrev Scorer := String → String → Nat

/-- Ranking used by the model of `process.extract`: higher score first,
ties in candidate input order (third component = input index). -/
def extractRel (a b : String × Nat × Nat) : Prop :=
  b.2.1 < a.2.1 ∨ (a.2.1 = b.2.1 ∧ a.2.2 ≤ b.2.2)

instance : DecidableRel extractRel := fun a b => by
  unfold extractRel; infer_instance

instance : IsTotal (String × Nat × Nat) extractRel :=
  ⟨by intro a b; unfold extractRel; omega⟩

instance : IsTrans (String × Nat × Nat) extractRel :=
  ⟨by intro a b c; unfold extractRel; omega⟩

/-- Model of `rapidfuzz.process.extract`: triples `(match, score, index)`,
scores below the cutoff dropped, sorted by descending score with ties in
input order, truncated to `limit`. -/
def extract (S : Scorer) (query : String) (candidates : List String)
    (score_cutoff limit : Nat) : List (String × Nat × Nat) :=
  let scored := candidates.enum.map (fun p => (p.2, S query p.2, p.1))
  let kept := scored.filter (fun r => decide (score_cutoff ≤ r.2.1))
  (List.insertionSort extractRel kept).take limit

structure FuzzyMatch where
  name : String
  score : Nat
deriving DecidableEq, Repr

structure FuzzyMatcher where
  threshold : Nat
  max_results : Nat

/-- `FuzzyMatcher.find_matches`. -/
def find_matches (m : FuzzyMatcher) (S : Scorer) (query : String) (candidates : List String)
    (threshold limit : Option Nat) : List FuzzyMatch :=
  if candidates = [] then []
  else
    let effective_threshold := threshold.getD m.threshold
    let effective_limit := limit.getD m.max_results
    let query_normalized := pyNormalize query
    (extract S query_normalized candidates effective_threshold effective_limit).map
      (fun r => { name := r.1, score := r.2.1 })

/-! ## Validator -/

structure Context where
  schema_name : Option String
  table_name : Option String

/-- `context.schema_name if context else None`. -/
def ctxSchema : Option Context → Option String
  | some c => c.schema_name
  | none => none

/-- `context.table_name if context else None`. -/
def ctxTable : Option Context → Option String
  | some c => c.table_name
  | none => none

inductive ValidationStatus where
  | valid
  | suggestions
  | not_found
deriving DecidableEq, Repr

structure Suggestion where
  name : String
  score : Nat
deriving DecidableEq, Repr

/-- `ValidationResponse`; the source field `match` is a Lean keyword and
is called `matched` here. -/
structure ValidationResponse where
  status : ValidationStatus
  matched : Option String
  suggestions : Option (List Suggestion)
deriving DecidableEq, Repr

/-- `Validator._check_exact_match`. -/
def check_exact_match (st : IndexState) (scope normalized_term : String)
    (schema_name table_name : Option String) : Option String :=
  if scope = "schema" then
    if schema_exists st normalized_term then get_original_schema st normalized_term else none
  else if scope = "table" then
    if table_exists st normalized_term schema_name then get_original_table st normalized_term
    else none
  else if scope = "column" then
    if column_exists st normalized_term schema_name table_name then
      get_original_column st normalized_term
    else none
  else none

/-- The exact-stage existence test on its own (the `*_exists` dispatch of
`_check_exact_match`, without the casing recovery). -/
def exists_for_scope (st : IndexState) (scope term : String)
    (schema_name table_name : Option String) : Bool :=
  if scope = "schema" then schema_exists st term
  else if scope = "table" then table_exists st term schema_name
  else if scope = "column" then column_exists st term schema_name table_name
  else false

/-- `Validator._find_fuzzy_suggestions`.  Note the `if original_name:`
truthiness test: suggestions whose recovered casing is missing or the
empty string are dropped. -/
def find_fuzzy_suggestions (st : IndexState) (m : FuzzyMatcher) (S : Scorer)
    (scope search_term : String) (schema_name table_name : Option String) :
    Option (List Suggestion) :=
  let candidates := get_candidates_for_scope st scope schema_name table_name
  if candidates = [] then none
  else
    let matchList := find_matches m S search_term candidates none none
    if matchList = [] then none
    else
      let suggestions := matchList.foldl
        (fun acc mt =>
          match get_original_for_scope st scope mt.name with
          | some original_name =>
            if original_name ≠ "" then acc ++ [{ name := original_name, score := mt.score }]
            else acc
          | none => acc)
        []
      if suggestions = [] then none else some suggestions

/-- `Validator.validate`.  `if exact_match:` is Python truthiness: a
`None` or empty-string match falls through to the fuzzy stage. -/
def validate (st : IndexState) (m : FuzzyMatcher) (S : Scorer)
    (scope search_term : String) (context : Option Context) : ValidationResponse :=
  let normalized_term := pyNormalize search_term
  let schema_name := ctxSchema context
  let table_name := ctxTable context
  let exact_match := check_exact_match st scope normalized_term schema_name table_name
  if truthy exact_match then
    { status := .valid, matched := exact_match, suggestions := none }
  else
    match find_fuzzy_suggestions st m S scope search_term schema_name table_name with
    | some suggestions =>
      { status := .suggestions, matched := none, suggestions := some suggestions }
    | none =>
      { status := .not_found, matched := none, suggestions := some [] }

/-! ## Typeahead endpoint (`routers/suggest.py`, `suggest`) -/

/-- The `/suggest` handler after the environment check: fuzzy-match the
bare search keys, truncate to `limit` inside the extraction, then resolve
each matched key through the `search_key -> qualified_name` dict (built by
a comprehension, so the last pair wins for duplicate keys) and
`get_original_qualified`, deduplicating by display string. -/
def suggestModel (st : IndexState) (S : Scorer) (scope q : String)
    (schema_name table_name : Option String) (threshold limit : Nat) : List String :=
  let candidates := get_searchable_candidates_for_scope st scope schema_name table_name
  if candidates = [] then []
  else
    let search_keys := candidates.map (fun c => c.1)
    let key_to_qualified := candidates.foldl (fun m c => dictSet m c.1 c.2) []
    let query_lower := pyNormalize q
    let matchList := extract S query_lower search_keys threshold limit
    matchList.foldl
      (fun results r =>
        match lookupKey key_to_qualified r.1 with
        | some qualified_lower =>
          match get_original_qualified st scope qualified_lower with
          | some original =>
            if original ≠ "" ∧ original ∉ results then results ++ [original] else results
          | none => results
        | none => results)
      []

/-! ## Character and string lemmas -/

theorem char_ofNat_toNat_small (n : Nat) (h : n < 55296) : (Char.ofNat n).toNat = n := by
  unfold Char.ofNat
  rw [dif_pos (Or.inl h)]
  rfl

theorem charToLower_toNat (c : Char) (h1 : 65 ≤ c.toNat) (h2 : c.toNat ≤ 90) :
    (Char.toLower c).toNat = c.toNat + 32 := by
  show (if c.toNat ≥ 65 ∧ c.toNat ≤ 90 then Char.ofNat (c.toNat + 32) else c).toNat = c.toNat + 32
  rw [if_pos ⟨h1, h2⟩]
  exact char_ofNat_toNat_small _ (by omega)

theorem charToLower_eq_self (c : Char) (h : ¬(65 ≤ c.toNat ∧ c.toNat ≤ 90)) :
    Char.toLower c = c := by
  show (if c.toNat ≥ 65 ∧ c.toNat ≤ 90 then Char.ofNat (c.toNat + 32) else c) = c
  rw [if_neg h]

theorem charToLower_idem (c : Char) : Char.toLower (Char.toLower c) = Char.toLower c := by
  by_cases h : 65 ≤ c.toNat ∧ c.toNat ≤ 90
  · have h3 : (Char.toLower c).toNat = c.toNat + 32 := charToLower_toNat c h.1 h.2
    exact charToLower_eq_self _ (by omega)
  · rw [charToLower_eq_self c h, charToLower_eq_self c h]

theorem isSpaceChar_toLower (c : Char) : isSpaceChar (Char.toLower c) = isSpaceChar c := by
  by_cases h : 65 ≤ c.toNat ∧ c.toNat ≤ 90
  · have h3 : (Char.toLower c).toNat = c.toNat + 32 := charToLower_toNat c h.1 h.2
    have l1 : isSpaceChar (Char.toLower c) = false := by
      simp only [isSpaceChar, h3, Bool.or_eq_false_iff, decide_eq_false_iff_not]
      omega
    have l2 : isSpaceChar c = false := by
      simp only [isSpaceChar, Bool.or_eq_false_iff, decide_eq_false_iff_not]
      omega
    rw [l1, l2]
  · rw [charToLower_eq_self c h]

theorem data_pyLower (s : String) : (pyLower s).data = s.data.map Char.toLower := rfl

theorem data_pyStrip (s : String) :
    (pyStrip s).data = ((s.data.dropWhile isSpaceChar).reverse.dropWhile isSpaceChar).reverse := rfl

theorem pyLower_idem (s : String) : pyLower (pyLower s) = pyLower s := by
  show String.mk ((s.data.map Char.toLower).map Char.toLower) = String.mk (s.data.map Char.toLower)
  rw [List.map_map]
  congr 1
  apply List.map_congr_left
  intro c _
  exact charToLower_idem c

theorem map_toLower_dropWhile (l : List Char) :
    (l.dropWhile isSpaceChar).map Char.toLower = (l.map Char.toLower).dropWhile isSpaceChar := by
  induction l with
  | nil => rfl
  | cons c cs ih =>
    by_cases hc : isSpaceChar c
    · simp [List.dropWhile_cons, hc, isSpaceChar_toLower, ih]
    · simp [List.dropWhile_cons, hc, isSpaceChar_toLower]

theorem pyLower_pyStrip (s : String) : pyLower (pyStrip s) = pyStrip (pyLower s) := by
  show String.mk ((((s.data.dropWhile isSpaceChar).reverse.dropWhile isSpaceChar).reverse).map Char.toLower)
      = String.mk ((((s.data.map Char.toLower).dropWhile isSpaceChar).reverse.dropWhile isSpaceChar).reverse)
  rw [List.map_reverse, map_toLower_dropWhile, List.map_reverse, map_toLower_dropWhile]

/-- `lower` is idempotent on an already-normalised term: the key the
validator hands to the `*_exists` checks is re-lowered there without
changing it. -/
theorem pyLower_pyNormalize (s : String) : pyLower (pyNormalize s) = pyNormalize s := by
  unfold pyNormalize
  rw [pyLower_pyStrip, pyLower_idem]

/-! ## Container lemmas -/

theorem mem_addToSet {s : List String} {x y : String} :
    x ∈ addToSet s y ↔ x = y ∨ x ∈ s := by
  unfold addToSet
  by_cases h : y ∈ s
  · rw [if_pos h]
    constructor
    · exact Or.inr
    · rintro (rfl | hx)
      · exact h
      · exact hx
  · rw [if_neg h]
    simp [or_comm]

theorem lookupKey_append {κ β : Type} [DecidableEq κ] (m1 m2 : List (κ × β)) (q : κ) :
    lookupKey (m1 ++ m2) q =
      match lookupKey m1 q with
      | some v => some v
      | none => lookupKey m2 q := by
  induction m1 with
  | nil => rfl
  | cons p rest ih =>
    obtain ⟨k1, v1⟩ := p
    show lookupKey ((k1, v1) :: (rest ++ m2)) q = _
    by_cases hp : k1 = q <;> simp [lookupKey, hp, ih]

theorem lookupKey_mapReplace {κ β : Type} [DecidableEq κ] (m : List (κ × β)) (key q : κ) (v : β) :
    lookupKey (m.map (fun p => if p.1 = key then (key, v) else p)) q =
      if q = key then (if (lookupKey m key).isSome then some v else none)
      else lookupKey m q := by
  induction m with
  | nil => by_cases hq : q = key <;> simp [lookupKey, hq]
  | cons p rest ih =>
    obtain ⟨k1, v1⟩ := p
    simp only [List.map_cons]
    by_cases hk : k1 = key
    · rw [if_pos (show ((k1, v1) : κ × β).1 = key from hk)]
      by_cases hq : q = key
      · simp [lookupKey, hq, hk]
      · have hkey_q : ¬ key = q := fun hc => hq hc.symm
        have hk1q : ¬ k1 = q := by rw [hk]; exact hkey_q
        simp [lookupKey, hq, hkey_q, hk1q, ih]
    · rw [if_neg (show ¬ ((k1, v1) : κ × β).1 = key from hk)]
      by_cases hkq : k1 = q
      · have hq : ¬ q = key := fun hc => hk (hkq.trans hc)
        simp [lookupKey, hkq, hq]
      · by_cases hq : q = key
        · subst hq
          simp [lookupKey, hk, hkq, ih]
        · simp [lookupKey, hk, hkq, hq, ih]

theorem lookupKey_dictUpdate {κ β : Type} [DecidableEq κ] (m : List (κ × β)) (key q : κ)
    (f : β → β) :
    lookupKey (dictUpdate m key f) q =
      if q = key then (lookupKey m key).map f else lookupKey m q := by
  unfold dictUpdate
  induction m with
  | nil => by_cases hq : q = key <;> simp [lookupKey, hq]
  | cons p rest ih =>
    obtain ⟨k1, v1⟩ := p
    simp only [List.map_cons]
    by_cases hk : k1 = key
    · rw [if_pos (show ((k1, v1) : κ × β).1 = key from hk)]
      by_cases hq : q = key
      · simp [lookupKey, hq, hk]
      · have hkey_q : ¬ key = q := fun hc => hq hc.symm
        have hk1q : ¬ k1 = q := by rw [hk]; exact hkey_q
        simp [lookupKey, hq, hkey_q, hk1q, ih]
    · rw [if_neg (show ¬ ((k1, v1) : κ × β).1 = key from hk)]
      by_cases hkq : k1 = q
      · have hq : ¬ q = key := fun hc => hk (hkq.trans hc)
        simp [lookupKey, hkq, hq]
      · by_cases hq : q = key
        · subst hq
          simp [lookupKey, hk, hkq, ih]
        · simp [lookupKey, hk, hkq, hq, ih]

theorem lookupKey_dictSet {κ β : Type} [DecidableEq κ] (m : List (κ × β)) (key q : κ) (v : β) :
    lookupKey (dictSet m key v) q = if q = key then some v else lookupKey m q := by
  unfold dictSet
  by_cases h : (lookupKey m key).isSome
  · rw [if_pos h, lookupKey_mapReplace, if_pos h]
  · rw [if_neg h, lookupKey_append]
    by_cases hq : q = key
    · subst hq
      rw [Option.not_isSome_iff_eq_none] at h
      rw [h]
      simp [lookupKey]
    · cases hl : lookupKey m q with
      | none =>
        simp only [hl, lookupKey]
        rw [if_neg (fun hc : key = q => hq hc.symm), if_neg hq]
      | some w => simp [hq]

theorem lookupKey_isSome_dictSet {κ β : Type} [DecidableEq κ] (m : List (κ × β)) (key q : κ)
    (v : β) :
    (lookupKey (dictSet m key v) q).isSome = true ↔ q = key ∨ (lookupKey m q).isSome = true := by
  rw [lookupKey_dictSet]
  by_cases hq : q = key <;> simp [hq]

/-! ## Build event decomposition

For the inductive proofs the nested build loops are flattened into a
stream of per-name events; `buildRaw` is the left fold of `applyEv` over
that stream. -/

inductive BuildEv where
  | schemaEv (schema_name : String)
  | tableEv (schema_name table_name : String)
  | colEv (schema_name table_name column_name : String)

def applyEv (st : IndexState) : BuildEv → IndexState
  | .schemaEv s => schemaStepPre st s
  | .tableEv s t => tableStepPre st s t
  | .colEv s t c => colStep st s t c

def tableEvents (s : String) (tc : String × List String) : List BuildEv :=
  .tableEv s tc.1 :: tc.2.map (.colEv s tc.1)

def schemaEvents (sc : String × List (String × List String)) : List BuildEv :=
  .schemaEv sc.1 :: sc.2.flatMap (tableEvents sc.1)

def buildEvents (raw : Raw) : List BuildEv :=
  raw.flatMap schemaEvents

theorem processColumns_eq (st : IndexState) (s t : String) (cols : List String) :
    processColumns st s t cols = (cols.map (BuildEv.colEv s t)).foldl applyEv st := by
  rw [List.foldl_map]
  rfl

theorem processTable_eq (st : IndexState) (s : String) (tc : String × List String) :
    processTable st s tc = (tableEvents s tc).foldl applyEv st := by
  show processColumns (tableStepPre st s tc.1) s tc.1 tc.2 = _
  rw [tableEvents, List.foldl_cons, processColumns_eq]
  rfl

theorem processTables_eq (st : IndexState) (s : String) (tbls : List (String × List String)) :
    processTables st s tbls = (tbls.flatMap (tableEvents s)).foldl applyEv st := by
  induction tbls generalizing st with
  | nil => rfl
  | cons tc rest ih =>
    show processTables (processTable st s tc) s rest = _
    rw [List.flatMap_cons, List.foldl_append, ih, processTable_eq]

theorem processSchema_eq (st : IndexState) (sc : String × List (String × List String)) :
    processSchema st sc = (schemaEvents sc).foldl applyEv st := by
  show processTables (schemaStepPre st sc.1) sc.1 sc.2 = _
  rw [schemaEvents, List.foldl_cons, processTables_eq]
  rfl

theorem processSchemas_eq (st : IndexState) (raw : Raw) :
    processSchemas st raw = (buildEvents raw).foldl applyEv st := by
  induction raw generalizing st with
  | nil => rfl
  | cons sc rest ih =>
    show processSchemas (processSchema st sc) rest = _
    rw [buildEvents, List.flatMap_cons, List.foldl_append, ih, processSchema_eq]
    rfl

theorem buildRaw_eq_foldl (raw : Raw) :
    buildRaw raw = (buildEvents raw).foldl applyEv { emptyIndex with schemas := schemasToDyn raw } :=
  processSchemas_eq _ raw

/-! ## Build invariants -/

/-- Structural invariants maintained by every step of the build: the
sets, candidate lists and casing maps of each level stay in lockstep,
the global table/column candidate lists stay duplicate-free, and the
per-schema / per-(schema, table) structures only hold names that are
also registered globally. -/
structure BuildInv (st : IndexState) : Prop where
  ss_sl : ∀ x, x ∈ st.schemas_set ↔ x ∈ st.schemas_list
  sl_sm : ∀ x, x ∈ st.schemas_list ↔ (lookupKey st.schemas_map x).isSome = true
  ts_tl : ∀ x, x ∈ st.tables_set ↔ x ∈ st.tables_list
  tl_tm : ∀ x, x ∈ st.tables_list ↔ (lookupKey st.tables_map x).isSome = true
  tl_nd : st.tables_list.Nodup
  cs_cl : ∀ x, x ∈ st.columns_set ↔ x ∈ st.columns_list
  cl_cm : ∀ x, x ∈ st.columns_list ↔ (lookupKey st.columns_map x).isSome = true
  cl_nd : st.columns_list.Nodup
  tbs_keys : ∀ s, (lookupKey st.tables_by_schema s).isSome = true ↔
    (lookupKey st.tables_list_by_schema s).isSome = true
  tbs_memb : ∀ s ts ls, lookupKey st.tables_by_schema s = some ts →
    lookupKey st.tables_list_by_schema s = some ls → ∀ x, x ∈ ts ↔ x ∈ ls
  tbs_sub : ∀ s ts, lookupKey st.tables_by_schema s = some ts → ∀ x ∈ ts, x ∈ st.tables_set
  tlbs_sub : ∀ s ls, lookupKey st.tables_list_by_schema s = some ls → ∀ x ∈ ls, x ∈ st.tables_set
  cbt_keys : ∀ k, (lookupKey st.columns_by_table k).isSome = true ↔
    (lookupKey st.columns_list_by_table k).isSome = true
  cbt_memb : ∀ k cs ls, lookupKey st.columns_by_table k = some cs →
    lookupKey st.columns_list_by_table k = some ls → ∀ x, x ∈ cs ↔ x ∈ ls
  cbt_sub : ∀ k cs, lookupKey st.columns_by_table k = some cs → ∀ x ∈ cs, x ∈ st.columns_set
  clbt_sub : ∀ k ls, lookupKey st.columns_list_by_table k = some ls → ∀ x ∈ ls, x ∈ st.columns_set

theorem buildInv_empty : BuildInv emptyIndex := by
  constructor <;> simp [emptyIndex, lookupKey]

theorem buildInv_schemaStep {st : IndexState} (h : BuildInv st) (n : String) :
    BuildInv (schemaStepPre st n) := by
  refine ⟨?_, ?_, h.ts_tl, h.tl_tm, h.tl_nd, h.cs_cl, h.cl_cm, h.cl_nd, ?_, ?_, ?_, ?_,
    h.cbt_keys, h.cbt_memb, h.cbt_sub, h.clbt_sub⟩
  · intro x
    show x ∈ addToSet st.schemas_set (pyLower n) ↔ x ∈ st.schemas_list ++ [pyLower n]
    rw [mem_addToSet, List.mem_append, List.mem_singleton, h.ss_sl x]
    tauto
  · intro x
    show x ∈ st.schemas_list ++ [pyLower n] ↔
      (lookupKey (dictSet st.schemas_map (pyLower n) n) x).isSome = true
    rw [List.mem_append, List.mem_singleton, lookupKey_dictSet]
    by_cases hx : x = pyLower n
    · simp [hx]
    · simp [hx, h.sl_sm x]
  · intro s
    show (lookupKey (dictSet st.tables_by_schema (pyLower n) []) s).isSome = true ↔
      (lookupKey (dictSet st.tables_list_by_schema (pyLower n) []) s).isSome = true
    rw [lookupKey_dictSet, lookupKey_dictSet]
    by_cases hs : s = pyLower n
    · simp [hs]
    · simp [hs, h.tbs_keys s]
  · intro s ts ls hts hls x
    rw [show (schemaStepPre st n).tables_by_schema = dictSet st.tables_by_schema (pyLower n) []
        from rfl, lookupKey_dictSet] at hts
    rw [show (schemaStepPre st n).tables_list_by_schema =
          dictSet st.tables_list_by_schema (pyLower n) [] from rfl, lookupKey_dictSet] at hls
    by_cases hs : s = pyLower n
    · rw [if_pos hs] at hts hls
      injection hts with hts
      injection hls with hls
      rw [← hts, ← hls]
    · rw [if_neg hs] at hts hls
      exact h.tbs_memb s ts ls hts hls x
  · intro s ts hts x hx
    rw [show (schemaStepPre st n).tables_by_schema = dictSet st.tables_by_schema (pyLower n) []
        from rfl, lookupKey_dictSet] at hts
    by_cases hs : s = pyLower n
    · rw [if_pos hs] at hts
      injection hts with hts
      rw [← hts] at hx
      cases hx
    · rw [if_neg hs] at hts
      exact h.tbs_sub s ts hts x hx
  · intro s ls hls x hx
    rw [show (schemaStepPre st n).tables_list_by_schema =
          dictSet st.tables_list_by_schema (pyLower n) [] from rfl, lookupKey_dictSet] at hls
    by_cases hs : s = pyLower n
    · rw [if_pos hs] at hls
      injection hls with hls
      rw [← hls] at hx
      cases hx
    · rw [if_neg hs] at hls
      exact h.tlbs_sub s ls hls x hx

theorem buildInv_tableStep {st : IndexState} (h : BuildInv st) (s t : String) :
    BuildInv (tableStepPre st s t) := by
  refine ⟨h.ss_sl, h.sl_sm, ?_, ?_, ?_, h.cs_cl, h.cl_cm, h.cl_nd, ?_, ?_, ?_, ?_, ?_, ?_, ?_, ?_⟩
  · intro x
    show x ∈ addToSet st.tables_set (pyLower t) ↔
      x ∈ (if (lookupKey st.tables_map (pyLower t)).isSome = true then st.tables_list
        else st.tables_list ++ [pyLower t])
    by_cases hc : (lookupKey st.tables_map (pyLower t)).isSome = true
    · rw [if_pos hc, mem_addToSet, h.ts_tl x]
      have : pyLower t ∈ st.tables_list := (h.tl_tm _).mpr hc
      constructor
      · rintro (rfl | hx)
        · exact this
        · exact hx
      · exact Or.inr
    · rw [if_neg hc, mem_addToSet, h.ts_tl x, List.mem_append, List.mem_singleton]
      tauto
  · intro x
    show x ∈ (if (lookupKey st.tables_map (pyLower t)).isSome = true then st.tables_list
        else st.tables_list ++ [pyLower t]) ↔
      (lookupKey (if (lookupKey st.tables_map (pyLower t)).isSome = true then st.tables_map
        else dictSet st.tables_map (pyLower t) t) x).isSome = true
    by_cases hc : (lookupKey st.tables_map (pyLower t)).isSome = true
    · rw [if_pos hc, if_pos hc]
      exact h.tl_tm x
    · rw [if_neg hc, if_neg hc, List.mem_append, List.mem_singleton, lookupKey_dictSet]
      by_cases hx : x = pyLower t
      · simp [hx]
      · simp [hx, h.tl_tm x]
  · show List.Nodup (if (lookupKey st.tables_map (pyLower t)).isSome = true then st.tables_list
      else st.tables_list ++ [pyLower t])
    by_cases hc : (lookupKey st.tables_map (pyLower t)).isSome = true
    · rw [if_pos hc]
      exact h.tl_nd
    · rw [if_neg hc, List.nodup_append]
      refine ⟨h.tl_nd, List.nodup_singleton _, ?_⟩
      intro x hx hx1
      rw [List.mem_singleton] at hx1
      subst hx1
      exact hc ((h.tl_tm _).mp hx)
  · intro q
    show (lookupKey (dictUpdate st.tables_by_schema (pyLower s)
        (fun ts => addToSet ts (pyLower t))) q).isSome = true ↔
      (lookupKey (dictUpdate st.tables_list_by_schema (pyLower s)
        (fun l => l ++ [pyLower t])) q).isSome = true
    rw [lookupKey_dictUpdate, lookupKey_dictUpdate]
    by_cases hq : q = pyLower s
    · rw [if_pos hq, if_pos hq]
      cases h1 : lookupKey st.tables_by_schema (pyLower s) with
      | none =>
        have h2 : lookupKey st.tables_list_by_schema (pyLower s) = none := by
          cases h2 : lookupKey st.tables_list_by_schema (pyLower s) with
          | none => rfl
          | some l =>
            exfalso
            have := (h.tbs_keys (pyLower s)).mpr (by simp [h2])
            simp [h1] at this
        simp [h2]
      | some ts =>
        have h2 : (lookupKey st.tables_list_by_schema (pyLower s)).isSome = true :=
          (h.tbs_keys (pyLower s)).mp (by simp [h1])
        obtain ⟨ls, h3⟩ := Option.isSome_iff_exists.mp h2
        simp [h3]
    · rw [if_neg hq, if_neg hq]
      exact h.tbs_keys q
  · intro q ts ls hts hls x
    rw [show (tableStepPre st s t).tables_by_schema = dictUpdate st.tables_by_schema (pyLower s)
        (fun v => addToSet v (pyLower t)) from rfl, lookupKey_dictUpdate] at hts
    rw [show (tableStepPre st s t).tables_list_by_schema =
          dictUpdate st.tables_list_by_schema (pyLower s) (fun l => l ++ [pyLower t]) from rfl,
        lookupKey_dictUpdate] at hls
    by_cases hq : q = pyLower s
    · rw [if_pos hq] at hts hls
      obtain ⟨ts0, hts0, hts1⟩ := Option.map_eq_some'.mp hts
      obtain ⟨ls0, hls0, hls1⟩ := Option.map_eq_some'.mp hls
      rw [← hts1, ← hls1, mem_addToSet, List.mem_append, List.mem_singleton,
        h.tbs_memb (pyLower s) ts0 ls0 hts0 hls0 x]
      tauto
    · rw [if_neg hq] at hts hls
      exact h.tbs_memb q ts ls hts hls x
  · intro q ts hts x hx
    rw [show (tableStepPre st s t).tables_by_schema = dictUpdate st.tables_by_schema (pyLower s)
        (fun v => addToSet v (pyLower t)) from rfl, lookupKey_dictUpdate] at hts
    show x ∈ addToSet st.tables_set (pyLower t)
    rw [mem_addToSet]
    by_cases hq : q = pyLower s
    · rw [if_pos hq] at hts
      obtain ⟨ts0, hts0, hts1⟩ := Option.map_eq_some'.mp hts
      rw [← hts1, mem_addToSet] at hx
      rcases hx with rfl | hx
      · exact Or.inl rfl
      · exact Or.inr (h.tbs_sub q ts0 (hq ▸ hts0) x hx)
    · rw [if_neg hq] at hts
      exact Or.inr (h.tbs_sub q ts hts x hx)
  · intro q ls hls x hx
    rw [show (tableStepPre st s t).tables_list_by_schema =
          dictUpdate st.tables_list_by_schema (pyLower s) (fun l => l ++ [pyLower t]) from rfl,
        lookupKey_dictUpdate] at hls
    show x ∈ addToSet st.tables_set (pyLower t)
    rw [mem_addToSet]
    by_cases hq : q = pyLower s
    · rw [if_pos hq] at hls
      obtain ⟨ls0, hls0, hls1⟩ := Option.map_eq_some'.mp hls
      rw [← hls1, List.mem_append, List.mem_singleton] at hx
      rcases hx with hx | rfl
      · exact Or.inr (h.tlbs_sub q ls0 (hq ▸ hls0) x hx)
      · exact Or.inl rfl
    · rw [if_neg hq] at hls
      exact Or.inr (h.tlbs_sub q ls hls x hx)
  · intro k
    show (lookupKey (dictSet st.columns_by_table (pyLower s, pyLower t) []) k).isSome = true ↔
      (lookupKey (dictSet st.columns_list_by_table (pyLower s, pyLower t) []) k).isSome = true
    rw [lookupKey_dictSet, lookupKey_dictSet]
    by_cases hk : k = (pyLower s, pyLower t)
    · simp [hk]
    · simp [hk, h.cbt_keys k]
  · intro k cs ls hcs hls x
    rw [show (tableStepPre st s t).columns_by_table =
          dictSet st.columns_by_table (pyLower s, pyLower t) [] from rfl,
        lookupKey_dictSet] at hcs
    rw [show (tableStepPre st s t).columns_list_by_table =
          dictSet st.columns_list_by_table (pyLower s, pyLower t) [] from rfl,
        lookupKey_dictSet] at hls
    by_cases hk : k = (pyLower s, pyLower t)
    · rw [if_pos hk] at hcs hls
      injection hcs with hcs
      injection hls with hls
      rw [← hcs, ← hls]
    · rw [if_neg hk] at hcs hls
      exact h.cbt_memb k cs ls hcs hls x
  · intro k cs hcs x hx
    rw [show (tableStepPre st s t).columns_by_table =
          dictSet st.columns_by_table (pyLower s, pyLower t) [] from rfl,
        lookupKey_dictSet] at hcs
    by_cases hk : k = (pyLower s, pyLower t)
    · rw [if_pos hk] at hcs
      injection hcs with hcs
      rw [← hcs] at hx
      cases hx
    · rw [if_neg hk] at hcs
      exact h.cbt_sub k cs hcs x hx
  · intro k ls hls x hx
    rw [show (tableStepPre st s t).columns_list_by_table =
          dictSet st.columns_list_by_table (pyLower s, pyLower t) [] from rfl,
        lookupKey_dictSet] at hls
    by_cases hk : k = (pyLower s, pyLower t)
    · rw [if_pos hk] at hls
      injection hls with hls
      rw [← hls] at hx
      cases hx
    · rw [if_neg hk] at hls
      exact h.clbt_sub k ls hls x hx

theorem buildInv_colStep {st : IndexState} (h : BuildInv st) (s t c : String) :
    BuildInv (colStep st s t c) := by
  refine ⟨h.ss_sl, h.sl_sm, h.ts_tl, h.tl_tm, h.tl_nd, ?_, ?_, ?_, h.tbs_keys, h.tbs_memb,
    h.tbs_sub, h.tlbs_sub, ?_, ?_, ?_, ?_⟩
  · intro x
    show x ∈ addToSet st.columns_set (pyLower c) ↔
      x ∈ (if (lookupKey st.columns_map (pyLower c)).isSome = true then st.columns_list
        else st.columns_list ++ [pyLower c])
    by_cases hc : (lookupKey st.columns_map (pyLower c)).isSome = true
    · rw [if_pos hc, mem_addToSet, h.cs_cl x]
      have : pyLower c ∈ st.columns_list := (h.cl_cm _).mpr hc
      constructor
      · rintro (rfl | hx)
        · exact this
        · exact hx
      · exact Or.inr
    · rw [if_neg hc, mem_addToSet, h.cs_cl x, List.mem_append, List.mem_singleton]
      tauto
  · intro x
    show x ∈ (if (lookupKey st.columns_map (pyLower c)).isSome = true then st.columns_list
        else st.columns_list ++ [pyLower c]) ↔
      (lookupKey (if (lookupKey st.columns_map (pyLower c)).isSome = true then st.columns_map
        else dictSet st.columns_map (pyLower c) c) x).isSome = true
    by_cases hc : (lookupKey st.columns_map (pyLower c)).isSome = true
    · rw [if_pos hc, if_pos hc]
      exact h.cl_cm x
    · rw [if_neg hc, if_neg hc, List.mem_append, List.mem_singleton, lookupKey_dictSet]
      by_cases hx : x = pyLower c
      · simp [hx]
      · simp [hx, h.cl_cm x]
  · show List.Nodup (if (lookupKey st.columns_map (pyLower c)).isSome = true then st.columns_list
      else st.columns_list ++ [pyLower c])
    by_cases hc : (lookupKey st.columns_map (pyLower c)).isSome = true
    · rw [if_pos hc]
      exact h.cl_nd
    · rw [if_neg hc, List.nodup_append]
      refine ⟨h.cl_nd, List.nodup_singleton _, ?_⟩
      intro x hx hx1
      rw [List.mem_singleton] at hx1
      subst hx1
      exact hc ((h.cl_cm _).mp hx)
  · intro k
    show (lookupKey (dictUpdate st.columns_by_table (pyLower s, pyLower t)
        (fun cs => addToSet cs (pyLower c))) k).isSome = true ↔
      (lookupKey (dictUpdate st.columns_list_by_table (pyLower s, pyLower t)
        (fun l => l ++ [pyLower c])) k).isSome = true
    rw [lookupKey_dictUpdate, lookupKey_dictUpdate]
    by_cases hk : k = (pyLower s, pyLower t)
    · rw [if_pos hk, if_pos hk]
      cases h1 : lookupKey st.columns_by_table (pyLower s, pyLower t) with
      | none =>
        have h2 : lookupKey st.columns_list_by_table (pyLower s, pyLower t) = none := by
          cases h2 : lookupKey st.columns_list_by_table (pyLower s, pyLower t) with
          | none => rfl
          | some l =>
            exfalso
            have := (h.cbt_keys (pyLower s, pyLower t)).mpr (by simp [h2])
            simp [h1] at this
        simp [h2]
      | some cs =>
        have h2 : (lookupKey st.columns_list_by_table (pyLower s, pyLower t)).isSome = true :=
          (h.cbt_keys (pyLower s, pyLower t)).mp (by simp [h1])
        obtain ⟨ls, h3⟩ := Option.isSome_iff_exists.mp h2
        simp [h3]
    · rw [if_neg hk, if_neg hk]
      exact h.cbt_keys k
  · intro k cs ls hcs hls x
    rw [show (colStep st s t c).columns_by_table = dictUpdate st.columns_by_table
          (pyLower s, pyLower t) (fun v => addToSet v (pyLower c)) from rfl,
        lookupKey_dictUpdate] at hcs
    rw [show (colStep st s t c).columns_list_by_table = dictUpdate st.columns_list_by_table
          (pyLower s, pyLower t) (fun l => l ++ [pyLower c]) from rfl,
        lookupKey_dictUpdate] at hls
    by_cases hk : k = (pyLower s, pyLower t)
    · rw [if_pos hk] at hcs hls
      obtain ⟨cs0, hcs0, hcs1⟩ := Option.map_eq_some'.mp hcs
      obtain ⟨ls0, hls0, hls1⟩ := Option.map_eq_some'.mp hls
      rw [← hcs1, ← hls1, mem_addToSet, List.mem_append, List.mem_singleton,
        h.cbt_memb (pyLower s, pyLower t) cs0 ls0 hcs0 hls0 x]
      tauto
    · rw [if_neg hk] at hcs hls
      exact h.cbt_memb k cs ls hcs hls x
  · intro k cs hcs x hx
    rw [show (colStep st s t c).columns_by_table = dictUpdate st.columns_by_table
          (pyLower s, pyLower t) (fun v => addToSet v (pyLower c)) from rfl,
        lookupKey_dictUpdate] at hcs
    show x ∈ addToSet st.columns_set (pyLower c)
    rw [mem_addToSet]
    by_cases hk : k = (pyLower s, pyLower t)
    · rw [if_pos hk] at hcs
      obtain ⟨cs0, hcs0, hcs1⟩ := Option.map_eq_some'.mp hcs
      rw [← hcs1, mem_addToSet] at hx
      rcases hx with rfl | hx
      · exact Or.inl rfl
      · exact Or.inr (h.cbt_sub k cs0 (hk ▸ hcs0) x hx)
    · rw [if_neg hk] at hcs
      exact Or.inr (h.cbt_sub k cs hcs x hx)
  · intro k ls hls x hx
    rw [show (colStep st s t c).columns_list_by_table = dictUpdate st.columns_list_by_table
          (pyLower s, pyLower t) (fun l => l ++ [pyLower c]) from rfl,
        lookupKey_dictUpdate] at hls
    show x ∈ addToSet st.columns_set (pyLower c)
    rw [mem_addToSet]
    by_cases hk : k = (pyLower s, pyLower t)
    · rw [if_pos hk] at hls
      obtain ⟨ls0, hls0, hls1⟩ := Option.map_eq_some'.mp hls
      rw [← hls1, List.mem_append, List.mem_singleton] at hx
      rcases hx with hx | rfl
      · exact Or.inr (h.clbt_sub k ls0 (hk ▸ hls0) x hx)
      · exact Or.inl rfl
    · rw [if_neg hk] at hls
      exact Or.inr (h.clbt_sub k ls hls x hx)

theorem buildInv_applyEv {st : IndexState} (h : BuildInv st) (e : BuildEv) :
    BuildInv (applyEv st e) := by
  cases e with
  | schemaEv n => exact buildInv_schemaStep h n
  | tableEv s t => exact buildInv_tableStep h s t
  | colEv s t c => exact buildInv_colStep h s t c

theorem buildInv_foldl {st : IndexState} (h : BuildInv st) (evs : List BuildEv) :
    BuildInv (evs.foldl applyEv st) := by
  induction evs generalizing st with
  | nil => exact h
  | cons e rest ih => exact ih (buildInv_applyEv h e)

/-- Every index built from a raw snapshot satisfies the structural
invariants. -/
theorem buildInv_buildRaw (raw : Raw) : BuildInv (buildRaw raw) := by
  rw [buildRaw_eq_foldl]
  refine buildInv_foldl ?_ _
  constructor <;> simp [emptyIndex, lookupKey]

/-! ## Casing-map characterisations -/

def evSchemaNames (evs : List BuildEv) : List String :=
  evs.filterMap (fun e => match e with | .schemaEv n => some n | _ => none)

def evTableNames (evs : List BuildEv) : List String :=
  evs.filterMap (fun e => match e with | .tableEv _ t => some t | _ => none)

def evColumnNames (evs : List BuildEv) : List String :=
  evs.filterMap (fun e => match e with | .colEv _ _ c => some c | _ => none)

/-- Schema names of a raw snapshot, in iteration order. -/
def rawSchemaNames (raw : Raw) : List String :=
  raw.map (fun sc => sc.1)

/-- Table names of a raw snapshot, in iteration order (with repetitions
across schemas). -/
def rawTableNames (raw : Raw) : List String :=
  raw.flatMap (fun sc => sc.2.map (fun tc => tc.1))

/-- Column names of a raw snapshot, in iteration order. -/
def rawColumnNames (raw : Raw) : List String :=
  raw.flatMap (fun sc => sc.2.flatMap (fun tc => tc.2))

theorem evSchemaNames_append (l1 l2 : List BuildEv) :
    evSchemaNames (l1 ++ l2) = evSchemaNames l1 ++ evSchemaNames l2 :=
  List.filterMap_append l1 l2 _

theorem evTableNames_append (l1 l2 : List BuildEv) :
    evTableNames (l1 ++ l2) = evTableNames l1 ++ evTableNames l2 :=
  List.filterMap_append l1 l2 _

theorem evColumnNames_append (l1 l2 : List BuildEv) :
    evColumnNames (l1 ++ l2) = evColumnNames l1 ++ evColumnNames l2 :=
  List.filterMap_append l1 l2 _

theorem evSchemaNames_tableEvents (s : String) (tc : String × List String) :
    evSchemaNames (tableEvents s tc) = [] := by
  simp [tableEvents, evSchemaNames, List.filterMap_cons, List.filterMap_map, Function.comp]

theorem evSchemaNames_buildEvents (raw : Raw) :
    evSchemaNames (buildEvents raw) = rawSchemaNames raw := by
  induction raw with
  | nil => rfl
  | cons sc rest ih =>
    rw [buildEvents, List.flatMap_cons, evSchemaNames_append]
    show evSchemaNames (schemaEvents sc) ++ evSchemaNames (buildEvents rest) = _
    rw [ih]
    have h1 : evSchemaNames (schemaEvents sc) = [sc.1] := by
      rw [schemaEvents]
      show sc.1 :: evSchemaNames (sc.2.flatMap (tableEvents sc.1)) = _
      congr 1
      induction sc.2 with
      | nil => rfl
      | cons tc r2 ih2 =>
        rw [List.flatMap_cons, evSchemaNames_append, ih2, evSchemaNames_tableEvents]
        rfl
    rw [h1]
    rfl

theorem evTableNames_tableEvents (s : String) (tc : String × List String) :
    evTableNames (tableEvents s tc) = [tc.1] := by
  simp [tableEvents, evTableNames, List.filterMap_cons, List.filterMap_map, Function.comp]

theorem evTableNames_buildEvents (raw : Raw) :
    evTableNames (buildEvents raw) = rawTableNames raw := by
  induction raw with
  | nil => rfl
  | cons sc rest ih =>
    rw [buildEvents, List.flatMap_cons, evTableNames_append]
    show evTableNames (schemaEvents sc) ++ evTableNames (buildEvents rest) = _
    rw [ih]
    have h1 : evTableNames (schemaEvents sc) = sc.2.map (fun tc => tc.1) := by
      rw [schemaEvents]
      show evTableNames (sc.2.flatMap (tableEvents sc.1)) = _
      induction sc.2 with
      | nil => rfl
      | cons tc r2 ih2 =>
        rw [List.flatMap_cons, evTableNames_append, ih2, evTableNames_tableEvents]
        rfl
    rw [h1]
    rfl

theorem evColumnNames_tableEvents (s : String) (tc : String × List String) :
    evColumnNames (tableEvents s tc) = tc.2 := by
  show evColumnNames (tc.2.map (BuildEv.colEv s tc.1)) = tc.2
  induction tc.2 with
  | nil => rfl
  | cons c r ih =>
    show c :: evColumnNames (r.map (BuildEv.colEv s tc.1)) = c :: r
    rw [ih]

theorem evColumnNames_buildEvents (raw : Raw) :
    evColumnNames (buildEvents raw) = rawColumnNames raw := by
  induction raw with
  | nil => rfl
  | cons sc rest ih =>
    rw [buildEvents, List.flatMap_cons, evColumnNames_append]
    show evColumnNames (schemaEvents sc) ++ evColumnNames (buildEvents rest) = _
    rw [ih]
    have h1 : evColumnNames (schemaEvents sc) = sc.2.flatMap (fun tc => tc.2) := by
      rw [schemaEvents]
      show evColumnNames (sc.2.flatMap (tableEvents sc.1)) = _
      induction sc.2 with
      | nil => rfl
      | cons tc r2 ih2 =>
        rw [List.flatMap_cons, evColumnNames_append, ih2, evColumnNames_tableEvents,
          List.flatMap_cons]
    rw [h1]
    rfl

theorem find?_append_match {α : Type} (p : α → Bool) (l1 l2 : List α) :
    List.find? p (l1 ++ l2) =
      match List.find? p l1 with
      | some a => some a
      | none => List.find? p l2 := by
  induction l1 with
  | nil => rfl
  | cons a rest ih =>
    cases ha : p a
    · simp only [List.cons_append, List.find?_cons, ha]
      exact ih
    · simp [List.cons_append, List.find?_cons, ha]

/-- `schemas_map` is written unconditionally (`self.schemas_map[k] = v`),
so the LAST raw occurrence of a normalised schema key wins. -/
theorem schemas_map_foldl (evs : List BuildEv) : ∀ (st : IndexState) (k : String),
    lookupKey ((evs.foldl applyEv st).schemas_map) k =
      match (evSchemaNames evs).reverse.find? (fun n => decide (pyLower n = k)) with
      | some n => some n
      | none => lookupKey st.schemas_map k := by
  induction evs with
  | nil => intro st k; rfl
  | cons e rest ih =>
    intro st k
    cases e with
    | schemaEv n =>
      show lookupKey ((rest.foldl applyEv (schemaStepPre st n)).schemas_map) k = _
      rw [ih]
      show _ = match ((n :: evSchemaNames rest).reverse).find? (fun n => decide (pyLower n = k))
        with | some n => some n | none => lookupKey st.schemas_map k
      rw [List.reverse_cons, find?_append_match]
      cases hr : (evSchemaNames rest).reverse.find? (fun n => decide (pyLower n = k)) with
      | some m => rfl
      | none =>
        show lookupKey (dictSet st.schemas_map (pyLower n) n) k = _
        rw [lookupKey_dictSet]
        by_cases hn : pyLower n = k
        · rw [if_pos (by rw [hn])]
          simp [List.find?_cons, decide_eq_true hn]
        · rw [if_neg (fun hc => hn hc.symm)]
          simp [List.find?_cons, decide_eq_false hn]
    | tableEv s t =>
      show lookupKey ((rest.foldl applyEv (tableStepPre st s t)).schemas_map) k = _
      rw [ih]
      rfl
    | colEv s t c =>
      show lookupKey ((rest.foldl applyEv (colStep st s t c)).schemas_map) k = _
      rw [ih]
      rfl

/-- `tables_map` is written under a `not in` guard, so the FIRST raw
occurrence of a normalised table key wins. -/
theorem tables_map_foldl (evs : List BuildEv) : ∀ (st : IndexState) (k : String),
    lookupKey ((evs.foldl applyEv st).tables_map) k =
      match lookupKey st.tables_map k with
      | some v => some v
      | none => (evTableNames evs).find? (fun n => decide (pyLower n = k)) := by
  induction evs with
  | nil =>
    intro st k
    cases h : lookupKey st.tables_map k with
    | some v => simp [h]
    | none => exact h
  | cons e rest ih =>
    intro st k
    cases e with
    | schemaEv n =>
      show lookupKey ((rest.foldl applyEv (schemaStepPre st n)).tables_map) k = _
      rw [ih]
      rfl
    | tableEv s t =>
      show lookupKey ((rest.foldl applyEv (tableStepPre st s t)).tables_map) k = _
      rw [ih]
      show (match lookupKey (if (lookupKey st.tables_map (pyLower t)).isSome = true
          then st.tables_map else dictSet st.tables_map (pyLower t) t) k with
        | some v => some v
        | none => (evTableNames rest).find? (fun n => decide (pyLower n = k))) = _
      by_cases hc : (lookupKey st.tables_map (pyLower t)).isSome = true
      · rw [if_pos hc]
        cases hk : lookupKey st.tables_map k with
        | some v => simp [hk]
        | none =>
          have hnt : ¬ pyLower t = k := by
            intro he
            rw [he, hk] at hc
            simp at hc
          simp only [hk]
          show _ = match (none : Option String) with
            | some v => some v
            | none => List.find? (fun n => decide (pyLower n = k)) (t :: evTableNames rest)
          simp [List.find?_cons, decide_eq_false hnt]
      · rw [if_neg hc, lookupKey_dictSet]
        by_cases hk : k = pyLower t
        · rw [if_pos hk]
          have hmk : lookupKey st.tables_map k = none := by
            rw [Option.not_isSome_iff_eq_none] at hc
            rw [hk, hc]
          simp only [hmk]
          show some t = match (none : Option String) with
            | some v => some v
            | none => List.find? (fun n => decide (pyLower n = k)) (t :: evTableNames rest)
          simp [List.find?_cons, decide_eq_true hk.symm]
        · rw [if_neg hk]
          cases hmk : lookupKey st.tables_map k with
          | some v => simp [hmk]
          | none =>
            simp only [hmk]
            show _ = match (none : Option String) with
              | some v => some v
              | none => List.find? (fun n => decide (pyLower n = k)) (t :: evTableNames rest)
            simp [List.find?_cons, decide_eq_false (fun hc2 : pyLower t = k => hk hc2.symm)]
    | colEv s t c =>
      show lookupKey ((rest.foldl applyEv (colStep st s t c)).tables_map) k = _
      rw [ih]
      rfl

/-- `columns_map` is also first-write-wins. -/
theorem columns_map_foldl (evs : List BuildEv) : ∀ (st : IndexState) (k : String),
    lookupKey ((evs.foldl applyEv st).columns_map) k =
      match lookupKey st.columns_map k with
      | some v => some v
      | none => (evColumnNames evs).find? (fun n => decide (pyLower n = k)) := by
  induction evs with
  | nil =>
    intro st k
    cases h : lookupKey st.columns_map k with
    | some v => simp [h]
    | none => exact h
  | cons e rest ih =>
    intro st k
    cases e with
    | schemaEv n =>
      show lookupKey ((rest.foldl applyEv (schemaStepPre st n)).columns_map) k = _
      rw [ih]
      rfl
    | tableEv s t =>
      show lookupKey ((rest.foldl applyEv (tableStepPre st s t)).columns_map) k = _
      rw [ih]
      rfl
    | colEv s t c =>
      show lookupKey ((rest.foldl applyEv (colStep st s t c)).columns_map) k = _
      rw [ih]
      show (match lookupKey (if (lookupKey st.columns_map (pyLower c)).isSome = true
          then st.columns_map else dictSet st.columns_map (pyLower c) c) k with
        | some v => some v
        | none => (evColumnNames rest).find? (fun n => decide (pyLower n = k))) = _
      by_cases hc : (lookupKey st.columns_map (pyLower c)).isSome = true
      · rw [if_pos hc]
        cases hk : lookupKey st.columns_map k with
        | some v => simp [hk]
        | none =>
          have hnt : ¬ pyLower c = k := by
            intro he
            rw [he, hk] at hc
            simp at hc
          simp only [hk]
          show _ = match (none : Option String) with
            | some v => some v
            | none => List.find? (fun n => decide (pyLower n = k)) (c :: evColumnNames rest)
          simp [List.find?_cons, decide_eq_false hnt]
      · rw [if_neg hc, lookupKey_dictSet]
        by_cases hk : k = pyLower c
        · rw [if_pos hk]
          have hmk : lookupKey st.columns_map k = none := by
            rw [Option.not_isSome_iff_eq_none] at hc
            rw [hk, hc]
          simp only [hmk]
          show some c = match (none : Option String) with
            | some v => some v
            | none => List.find? (fun n => decide (pyLower n = k)) (c :: evColumnNames rest)
          simp [List.find?_cons, decide_eq_true hk.symm]
        · rw [if_neg hk]
          cases hmk : lookupKey st.columns_map k with
          | some v => simp [hmk]
          | none =>
            simp only [hmk]
            show _ = match (none : Option String) with
              | some v => some v
              | none => List.find? (fun n => decide (pyLower n = k)) (c :: evColumnNames rest)
            simp [List.find?_cons, decide_eq_false (fun hc2 : pyLower c = k => hk hc2.symm)]

theorem lookupKey_schemas_map_buildRaw (raw : Raw) (k : String) :
    lookupKey (buildRaw raw).schemas_map k =
      (rawSchemaNames raw).reverse.find? (fun n => decide (pyLower n = k)) := by
  rw [buildRaw_eq_foldl, schemas_map_foldl, evSchemaNames_buildEvents]
  cases h : (rawSchemaNames raw).reverse.find? (fun n => decide (pyLower n = k)) <;> rfl

theorem lookupKey_tables_map_buildRaw (raw : Raw) (k : String) :
    lookupKey (buildRaw raw).tables_map k =
      (rawTableNames raw).find? (fun n => decide (pyLower n = k)) := by
  rw [buildRaw_eq_foldl, tables_map_foldl, evTableNames_buildEvents]
  rfl

theorem lookupKey_columns_map_buildRaw (raw : Raw) (k : String) :
    lookupKey (buildRaw raw).columns_map k =
      (rawColumnNames raw).find? (fun n => decide (pyLower n = k)) := by
  rw [buildRaw_eq_foldl, columns_map_foldl, evColumnNames_buildEvents]
  rfl

/-! ## Per-(schema, table) column characterisation -/

/-- Effect of one build event on the `columns_list_by_table` entry at
key `k`: a table event for `k` resets it, a column event for `k`
appends. -/
def colListEvStep (k : String × String) (acc : Option (List String)) : BuildEv → Option (List String)
  | .schemaEv _ => acc
  | .tableEv s t => if (pyLower s, pyLower t) = k then some [] else acc
  | .colEv s t c =>
    if (pyLower s, pyLower t) = k then
      match acc with
      | some l => some (l ++ [pyLower c])
      | none => none
    else acc

def colsAfter (k : String × String) (evs : List BuildEv) (acc : Option (List String)) :
    Option (List String) :=
  evs.foldl (colListEvStep k) acc

/-- Same for the `columns_by_table` set entry. -/
def colSetEvStep (k : String × String) (acc : Option (List String)) : BuildEv → Option (List String)
  | .schemaEv _ => acc
  | .tableEv s t => if (pyLower s, pyLower t) = k then some [] else acc
  | .colEv s t c =>
    if (pyLower s, pyLower t) = k then
      match acc with
      | some l => some (addToSet l (pyLower c))
      | none => none
    else acc

def colSetAfter (k : String × String) (evs : List BuildEv) (acc : Option (List String)) :
    Option (List String) :=
  evs.foldl (colSetEvStep k) acc

theorem clbt_foldl (evs : List BuildEv) : ∀ (st : IndexState) (k : String × String),
    lookupKey ((evs.foldl applyEv st).columns_list_by_table) k =
      colsAfter k evs (lookupKey st.columns_list_by_table k) := by
  induction evs with
  | nil => intro st k; rfl
  | cons e rest ih =>
    intro st k
    cases e with
    | schemaEv n =>
      show lookupKey ((rest.foldl applyEv (schemaStepPre st n)).columns_list_by_table) k = _
      rw [ih]
      rfl
    | tableEv s t =>
      show lookupKey ((rest.foldl applyEv (tableStepPre st s t)).columns_list_by_table) k = _
      rw [ih]
      show colsAfter k rest (lookupKey (dictSet st.columns_list_by_table
        (pyLower s, pyLower t) []) k) = colsAfter k rest
          (if (pyLower s, pyLower t) = k then some [] else lookupKey st.columns_list_by_table k)
      rw [lookupKey_dictSet]
      by_cases hk : k = (pyLower s, pyLower t)
      · rw [if_pos hk, if_pos hk.symm]
      · rw [if_neg hk, if_neg (fun hc => hk hc.symm)]
    | colEv s t c =>
      show lookupKey ((rest.foldl applyEv (colStep st s t c)).columns_list_by_table) k = _
      rw [ih]
      show colsAfter k rest (lookupKey (dictUpdate st.columns_list_by_table
        (pyLower s, pyLower t) (fun l => l ++ [pyLower c])) k) = _
      rw [lookupKey_dictUpdate]
      by_cases hk : k = (pyLower s, pyLower t)
      · rw [if_pos hk]
        show colsAfter k rest ((lookupKey st.columns_list_by_table (pyLower s, pyLower t)).map
          (fun l => l ++ [pyLower c])) = colsAfter k rest
            (if (pyLower s, pyLower t) = k then
              match lookupKey st.columns_list_by_table k with
              | some l => some (l ++ [pyLower c])
              | none => none
            else lookupKey st.columns_list_by_table k)
        rw [if_pos hk.symm, ← hk]
        cases lookupKey st.columns_list_by_table k <;> rfl
      · rw [if_neg hk]
        show colsAfter k rest (lookupKey st.columns_list_by_table k) = colsAfter k rest
            (if (pyLower s, pyLower t) = k then
              match lookupKey st.columns_list_by_table k with
              | some l => some (l ++ [pyLower c])
              | none => none
            else lookupKey st.columns_list_by_table k)
        rw [if_neg (fun hc => hk hc.symm)]

theorem cbt_foldl (evs : List BuildEv) : ∀ (st : IndexState) (k : String × String),
    lookupKey ((evs.foldl applyEv st).columns_by_table) k =
      colSetAfter k evs (lookupKey st.columns_by_table k) := by
  induction evs with
  | nil => intro st k; rfl
  | cons e rest ih =>
    intro st k
    cases e with
    | schemaEv n =>
      show lookupKey ((rest.foldl applyEv (schemaStepPre st n)).columns_by_table) k = _
      rw [ih]
      rfl
    | tableEv s t =>
      show lookupKey ((rest.foldl applyEv (tableStepPre st s t)).columns_by_table) k = _
      rw [ih]
      show colSetAfter k rest (lookupKey (dictSet st.columns_by_table
        (pyLower s, pyLower t) []) k) = colSetAfter k rest
          (if (pyLower s, pyLower t) = k then some [] else lookupKey st.columns_by_table k)
      rw [lookupKey_dictSet]
      by_cases hk : k = (pyLower s, pyLower t)
      · rw [if_pos hk, if_pos hk.symm]
      · rw [if_neg hk, if_neg (fun hc => hk hc.symm)]
    | colEv s t c =>
      show lookupKey ((rest.foldl applyEv (colStep st s t c)).columns_by_table) k = _
      rw [ih]
      show colSetAfter k rest (lookupKey (dictUpdate st.columns_by_table
        (pyLower s, pyLower t) (fun l => addToSet l (pyLower c))) k) = _
      rw [lookupKey_dictUpdate]
      by_cases hk : k = (pyLower s, pyLower t)
      · rw [if_pos hk]
        show colSetAfter k rest ((lookupKey st.columns_by_table (pyLower s, pyLower t)).map
          (fun l => addToSet l (pyLower c))) = colSetAfter k rest
            (if (pyLower s, pyLower t) = k then
              match lookupKey st.columns_by_table k with
              | some l => some (addToSet l (pyLower c))
              | none => none
            else lookupKey st.columns_by_table k)
        rw [if_pos hk.symm, ← hk]
        cases lookupKey st.columns_by_table k <;> rfl
      · rw [if_neg hk]
        show colSetAfter k rest (lookupKey st.columns_by_table k) = colSetAfter k rest
            (if (pyLower s, pyLower t) = k then
              match lookupKey st.columns_by_table k with
              | some l => some (addToSet l (pyLower c))
              | none => none
            else lookupKey st.columns_by_table k)
        rw [if_neg (fun hc => hk hc.symm)]

theorem colsAfter_append (k : String × String) (l1 l2 : List BuildEv) (a : Option (List String)) :
    colsAfter k (l1 ++ l2) a = colsAfter k l2 (colsAfter k l1 a) :=
  List.foldl_append _ _ _ _

theorem colSetAfter_append (k : String × String) (l1 l2 : List BuildEv)
    (a : Option (List String)) :
    colSetAfter k (l1 ++ l2) a = colSetAfter k l2 (colSetAfter k l1 a) :=
  List.foldl_append _ _ _ _

/-- Python set contents built by repeated `add` from a list. -/
def listToSet (l : List String) : List String :=
  l.foldl addToSet []

theorem colsAfter_tableEvents (k : String × String) (s : String) (tc : String × List String)
    (a : Option (List String)) :
    colsAfter k (tableEvents s tc) a =
      if (pyLower s, pyLower tc.1) = k then some (tc.2.map pyLower) else a := by
  by_cases hk : (pyLower s, pyLower tc.1) = k
  · rw [if_pos hk]
    show colsAfter k (tc.2.map (BuildEv.colEv s tc.1))
      (if (pyLower s, pyLower tc.1) = k then some [] else a) = _
    rw [if_pos hk]
    have helper : ∀ (cols l : List String),
        colsAfter k (cols.map (BuildEv.colEv s tc.1)) (some l) = some (l ++ cols.map pyLower) := by
      intro cols
      induction cols with
      | nil => intro l; simp [colsAfter]
      | cons c r ih =>
        intro l
        show colsAfter k (r.map (BuildEv.colEv s tc.1))
          (if (pyLower s, pyLower tc.1) = k then some (l ++ [pyLower c]) else some l) = _
        rw [if_pos hk, ih]
        simp
    rw [helper]
    simp
  · rw [if_neg hk]
    show colsAfter k (tc.2.map (BuildEv.colEv s tc.1))
      (if (pyLower s, pyLower tc.1) = k then some [] else a) = a
    rw [if_neg hk]
    induction tc.2 with
    | nil => rfl
    | cons c r ih =>
      show colsAfter k (r.map (BuildEv.colEv s tc.1))
        (colListEvStep k a (BuildEv.colEv s tc.1 c)) = a
      have hstep : colListEvStep k a (BuildEv.colEv s tc.1 c) = a := by
        simp [colListEvStep, hk]
      rw [hstep]
      exact ih

theorem colSetAfter_tableEvents (k : String × String) (s : String) (tc : String × List String)
    (a : Option (List String)) :
    colSetAfter k (tableEvents s tc) a =
      if (pyLower s, pyLower tc.1) = k then some (listToSet (tc.2.map pyLower)) else a := by
  by_cases hk : (pyLower s, pyLower tc.1) = k
  · rw [if_pos hk]
    show colSetAfter k (tc.2.map (BuildEv.colEv s tc.1))
      (if (pyLower s, pyLower tc.1) = k then some [] else a) = _
    rw [if_pos hk]
    have helper : ∀ (cols l : List String),
        colSetAfter k (cols.map (BuildEv.colEv s tc.1)) (some l) =
          some ((cols.map pyLower).foldl addToSet l) := by
      intro cols
      induction cols with
      | nil => intro l; simp [colSetAfter]
      | cons c r ih =>
        intro l
        show colSetAfter k (r.map (BuildEv.colEv s tc.1))
          (if (pyLower s, pyLower tc.1) = k then some (addToSet l (pyLower c)) else some l) = _
        rw [if_pos hk, ih]
        rfl
    rw [helper]
    rfl
  · rw [if_neg hk]
    show colSetAfter k (tc.2.map (BuildEv.colEv s tc.1))
      (if (pyLower s, pyLower tc.1) = k then some [] else a) = a
    rw [if_neg hk]
    induction tc.2 with
    | nil => rfl
    | cons c r ih =>
      show colSetAfter k (r.map (BuildEv.colEv s tc.1))
        (colSetEvStep k a (BuildEv.colEv s tc.1 c)) = a
      have hstep : colSetEvStep k a (BuildEv.colEv s tc.1 c) = a := by
        simp [colSetEvStep, hk]
      rw [hstep]
      exact ih

/-- The raw column list of the LAST raw occurrence of a normalised
(schema, table) pair, threaded from an accumulator. -/
def lastPairColsAux (raw : Raw) (k : String × String) (acc : Option (List String)) :
    Option (List String) :=
  raw.foldl (fun acc sc => sc.2.foldl (fun acc tc =>
    if (pyLower sc.1, pyLower tc.1) = k then some tc.2 else acc) acc) acc

/-- The raw column list of the LAST raw occurrence of a normalised
(schema, table) pair, if the pair occurs at all. -/
def lastPairCols (raw : Raw) (k : String × String) : Option (List String) :=
  lastPairColsAux raw k none

theorem colsAfter_tables (k : String × String) (s : String) :
    ∀ (tbls : List (String × List String)) (a : Option (List String)),
    colsAfter k (tbls.flatMap (tableEvents s)) (a.map (fun l => l.map pyLower)) =
      (tbls.foldl (fun acc tc => if (pyLower s, pyLower tc.1) = k then some tc.2 else acc) a).map
        (fun l => l.map pyLower) := by
  intro tbls
  induction tbls with
  | nil => intro a; rfl
  | cons tc r ih =>
    intro a
    rw [List.flatMap_cons, colsAfter_append, colsAfter_tableEvents]
    have hcomm : (if (pyLower s, pyLower tc.1) = k then some (tc.2.map pyLower)
        else a.map (fun l => l.map pyLower)) =
        (if (pyLower s, pyLower tc.1) = k then some tc.2 else a).map (fun l => l.map pyLower) := by
      by_cases hc : (pyLower s, pyLower tc.1) = k <;> simp [hc]
    rw [hcomm, ih]
    rfl

theorem colSetAfter_tables (k : String × String) (s : String) :
    ∀ (tbls : List (String × List String)) (a : Option (List String)),
    colSetAfter k (tbls.flatMap (tableEvents s)) (a.map (fun l => listToSet (l.map pyLower))) =
      (tbls.foldl (fun acc tc => if (pyLower s, pyLower tc.1) = k then some tc.2 else acc) a).map
        (fun l => listToSet (l.map pyLower)) := by
  intro tbls
  induction tbls with
  | nil => intro a; rfl
  | cons tc r ih =>
    intro a
    rw [List.flatMap_cons, colSetAfter_append, colSetAfter_tableEvents]
    have hcomm : (if (pyLower s, pyLower tc.1) = k then some (listToSet (tc.2.map pyLower))
        else a.map (fun l => listToSet (l.map pyLower))) =
        (if (pyLower s, pyLower tc.1) = k then some tc.2 else a).map
          (fun l => listToSet (l.map pyLower)) := by
      by_cases hc : (pyLower s, pyLower tc.1) = k <;> simp [hc]
    rw [hcomm, ih]
    rfl

/-- Characterisation of the per-pair column candidate list of a built
index: it is exactly the (normalised) column list of the LAST raw
occurrence of the pair — earlier occurrences are wiped by the
re-initialisation in the table-level build step. -/
theorem clbt_buildRaw (raw : Raw) (k : String × String) :
    lookupKey (buildRaw raw).columns_list_by_table k =
      (lastPairCols raw k).map (fun l => l.map pyLower) := by
  rw [buildRaw_eq_foldl, clbt_foldl]
  show colsAfter k (buildEvents raw) none = _
  have main : ∀ (raw2 : Raw) (a : Option (List String)),
      colsAfter k (buildEvents raw2) (a.map (fun l => l.map pyLower)) =
        (lastPairColsAux raw2 k a).map (fun l => l.map pyLower) := by
    intro raw2
    induction raw2 with
    | nil => intro a; rfl
    | cons sc rest ih =>
      intro a
      rw [buildEvents, List.flatMap_cons, colsAfter_append]
      show colsAfter k (buildEvents rest)
        (colsAfter k (sc.2.flatMap (tableEvents sc.1)) (a.map (fun l => l.map pyLower))) = _
      rw [colsAfter_tables, ih]
      rfl
  have h0 := main raw none
  simp only [Option.map_none'] at h0
  rw [h0]
  rfl

/-- Same characterisation for the per-pair column set. -/
theorem cbt_buildRaw (raw : Raw) (k : String × String) :
    lookupKey (buildRaw raw).columns_by_table k =
      (lastPairCols raw k).map (fun l => listToSet (l.map pyLower)) := by
  rw [buildRaw_eq_foldl, cbt_foldl]
  show colSetAfter k (buildEvents raw) none = _
  have main : ∀ (raw2 : Raw) (a : Option (List String)),
      colSetAfter k (buildEvents raw2) (a.map (fun l => listToSet (l.map pyLower))) =
        (lastPairColsAux raw2 k a).map (fun l => listToSet (l.map pyLower)) := by
    intro raw2
    induction raw2 with
    | nil => intro a; rfl
    | cons sc rest ih =>
      intro a
      rw [buildEvents, List.flatMap_cons, colSetAfter_append]
      show colSetAfter k (buildEvents rest)
        (colSetAfter k (sc.2.flatMap (tableEvents sc.1))
          (a.map (fun l => listToSet (l.map pyLower)))) = _
      rw [colSetAfter_tables, ih]
      rfl
  have h0 := main raw none
  simp only [Option.map_none'] at h0
  rw [h0]
  rfl

/-! ## Key-presence characterisations -/

theorem lookupKey_isSome_dictUpdate {κ β : Type} [DecidableEq κ] (m : List (κ × β)) (key q : κ)
    (f : β → β) :
    (lookupKey (dictUpdate m key f) q).isSome = (lookupKey m q).isSome := by
  rw [lookupKey_dictUpdate]
  by_cases hq : q = key
  · rw [if_pos hq, hq]
    cases lookupKey m key <;> rfl
  · rw [if_neg hq]

/-- Normalised (schema, table) pairs of a raw snapshot, in iteration
order. -/
def rawPairs (raw : Raw) : List (String × String) :=
  raw.flatMap (fun sc => sc.2.map (fun tc => (pyLower sc.1, pyLower tc.1)))

def evPairs (evs : List BuildEv) : List (String × String) :=
  evs.filterMap (fun e => match e with
    | .tableEv s t => some (pyLower s, pyLower t)
    | _ => none)

theorem evPairs_append (l1 l2 : List BuildEv) :
    evPairs (l1 ++ l2) = evPairs l1 ++ evPairs l2 :=
  List.filterMap_append l1 l2 _

theorem evPairs_tableEvents (s : String) (tc : String × List String) :
    evPairs (tableEvents s tc) = [(pyLower s, pyLower tc.1)] := by
  show (pyLower s, pyLower tc.1) :: evPairs (tc.2.map (BuildEv.colEv s tc.1)) = _
  congr 1
  induction tc.2 with
  | nil => rfl
  | cons c r ih => exact ih

theorem evPairs_buildEvents (raw : Raw) : evPairs (buildEvents raw) = rawPairs raw := by
  induction raw with
  | nil => rfl
  | cons sc rest ih =>
    rw [buildEvents, List.flatMap_cons, evPairs_append]
    show evPairs (schemaEvents sc) ++ evPairs (buildEvents rest) = _
    rw [ih]
    have h1 : evPairs (schemaEvents sc) = sc.2.map (fun tc => (pyLower sc.1, pyLower tc.1)) := by
      rw [schemaEvents]
      show evPairs (sc.2.flatMap (tableEvents sc.1)) = _
      induction sc.2 with
      | nil => rfl
      | cons tc r2 ih2 =>
        rw [List.flatMap_cons, evPairs_append, ih2, evPairs_tableEvents]
        rfl
    rw [h1]
    rfl

theorem tbs_keys_foldl (evs : List BuildEv) : ∀ (st : IndexState) (s : String),
    (lookupKey ((evs.foldl applyEv st).tables_by_schema) s).isSome = true ↔
      ((lookupKey st.tables_by_schema s).isSome = true ∨ s ∈ (evSchemaNames evs).map pyLower) := by
  induction evs with
  | nil => intro st s; simp [evSchemaNames]
  | cons e rest ih =>
    intro st s
    cases e with
    | schemaEv n =>
      show (lookupKey ((rest.foldl applyEv (schemaStepPre st n)).tables_by_schema) s).isSome
        = true ↔ _
      rw [ih]
      show ((lookupKey (dictSet st.tables_by_schema (pyLower n) []) s).isSome = true ∨ _) ↔ _
      rw [lookupKey_isSome_dictSet]
      show _ ↔ (_ ∨ s ∈ (pyLower n :: (evSchemaNames rest).map pyLower))
      rw [List.mem_cons]
      tauto
    | tableEv s2 t =>
      show (lookupKey ((rest.foldl applyEv (tableStepPre st s2 t)).tables_by_schema) s).isSome
        = true ↔ _
      rw [ih]
      show ((lookupKey (dictUpdate st.tables_by_schema (pyLower s2)
        (fun v => addToSet v (pyLower t))) s).isSome = true ∨ _) ↔ _
      rw [lookupKey_isSome_dictUpdate]
      exact Iff.rfl
    | colEv s2 t c =>
      show (lookupKey ((rest.foldl applyEv (colStep st s2 t c)).tables_by_schema) s).isSome
        = true ↔ _
      rw [ih]
      exact Iff.rfl

theorem cbt_keys_foldl (evs : List BuildEv) : ∀ (st : IndexState) (k : String × String),
    (lookupKey ((evs.foldl applyEv st).columns_by_table) k).isSome = true ↔
      ((lookupKey st.columns_by_table k).isSome = true ∨ k ∈ evPairs evs) := by
  induction evs with
  | nil => intro st k; simp [evPairs]
  | cons e rest ih =>
    intro st k
    cases e with
    | schemaEv n =>
      show (lookupKey ((rest.foldl applyEv (schemaStepPre st n)).columns_by_table) k).isSome
        = true ↔ _
      rw [ih]
      exact Iff.rfl
    | tableEv s t =>
      show (lookupKey ((rest.foldl applyEv (tableStepPre st s t)).columns_by_table) k).isSome
        = true ↔ _
      rw [ih]
      show ((lookupKey (dictSet st.columns_by_table (pyLower s, pyLower t) []) k).isSome
        = true ∨ _) ↔ _
      rw [lookupKey_isSome_dictSet]
      show _ ↔ (_ ∨ k ∈ ((pyLower s, pyLower t) :: evPairs rest))
      rw [List.mem_cons]
      tauto
    | colEv s t c =>
      show (lookupKey ((rest.foldl applyEv (colStep st s t c)).columns_by_table) k).isSome
        = true ↔ _
      rw [ih]
      show ((lookupKey (dictUpdate st.columns_by_table (pyLower s, pyLower t)
        (fun v => addToSet v (pyLower c))) k).isSome = true ∨ _) ↔ _
      rw [lookupKey_isSome_dictUpdate]
      exact Iff.rfl

theorem schemas_list_foldl (evs : List BuildEv) : ∀ (st : IndexState),
    (evs.foldl applyEv st).schemas_list = st.schemas_list ++ (evSchemaNames evs).map pyLower := by
  induction evs with
  | nil => intro st; simp [evSchemaNames]
  | cons e rest ih =>
    intro st
    cases e with
    | schemaEv n =>
      show (rest.foldl applyEv (schemaStepPre st n)).schemas_list = _
      rw [ih]
      show (st.schemas_list ++ [pyLower n]) ++ (evSchemaNames rest).map pyLower = _
      rw [List.append_assoc]
      rfl
    | tableEv s t =>
      show (rest.foldl applyEv (tableStepPre st s t)).schemas_list = _
      rw [ih]
      rfl
    | colEv s t c =>
      show (rest.foldl applyEv (colStep st s t c)).schemas_list = _
      rw [ih]
      rfl

/-- `schemas_list` is appended to unconditionally: one entry per raw
schema key, so two raw keys that collide after normalisation leave a
duplicate entry. -/
theorem schemas_list_buildRaw (raw : Raw) :
    (buildRaw raw).schemas_list = (rawSchemaNames raw).map pyLower := by
  rw [buildRaw_eq_foldl, schemas_list_foldl, evSchemaNames_buildEvents]
  rfl

/-- `tables_by_schema` has an entry exactly for the normalised schema
names of the raw snapshot. -/
theorem tbs_keys_buildRaw (raw : Raw) (s : String) :
    (lookupKey (buildRaw raw).tables_by_schema s).isSome = true ↔
      s ∈ (rawSchemaNames raw).map pyLower := by
  rw [buildRaw_eq_foldl, tbs_keys_foldl, evSchemaNames_buildEvents]
  simp [emptyIndex, lookupKey]

/-- `columns_by_table` has an entry exactly for the normalised
(schema, table) pairs of the raw snapshot. -/
theorem cbt_keys_buildRaw (raw : Raw) (k : String × String) :
    (lookupKey (buildRaw raw).columns_by_table k).isSome = true ↔ k ∈ rawPairs raw := by
  rw [buildRaw_eq_foldl, cbt_keys_foldl, evPairs_buildEvents]
  simp [emptyIndex, lookupKey]

/-! ## Fuzzy extraction lemmas -/

theorem extract_sorted (S : Scorer) (q : String) (cands : List String) (cutoff limit : Nat) :
    List.Pairwise extractRel (extract S q cands cutoff limit) :=
  List.Pairwise.sublist (List.take_sublist _ _) (List.sorted_insertionSort extractRel _)

theorem extract_mem {S : Scorer} {q : String} {cands : List String} {cutoff limit : Nat}
    {r : String × Nat × Nat} (h : r ∈ extract S q cands cutoff limit) :
    cands.get? r.2.2 = some r.1 ∧ r.2.1 = S q r.1 ∧ cutoff ≤ r.2.1 := by
  unfold extract at h
  have h1 := List.mem_of_mem_take h
  rw [List.mem_insertionSort] at h1
  have h3 := List.of_mem_filter h1
  have h2 := List.mem_of_mem_filter h1
  rw [List.mem_map] at h2
  obtain ⟨p, hp, hpe⟩ := h2
  rw [List.mem_enum_iff_get?] at hp
  obtain ⟨c, sc, i⟩ := r
  have e1 : p.2 = c := congrArg (fun x => x.1) hpe
  have e2 : S q p.2 = sc := congrArg (fun x => x.2.1) hpe
  have e3 : p.1 = i := congrArg (fun x => x.2.2) hpe
  refine ⟨?_, ?_, ?_⟩
  · rw [← e1, ← e3]
    exact hp
  · show sc = S q c
    rw [← e1, ← e2]
  · exact of_decide_eq_true h3

theorem extract_length (S : Scorer) (q : String) (cands : List String) (cutoff limit : Nat) :
    (extract S q cands cutoff limit).length ≤ limit :=
  List.length_take_le _ _

theorem extract_eq_nil_iff (S : Scorer) (q : String) (cands : List String) (cutoff limit : Nat)
    (hlim : 1 ≤ limit) :
    extract S q cands cutoff limit = [] ↔ ∀ c ∈ cands, S q c < cutoff := by
  unfold extract
  rw [List.take_eq_nil_iff]
  have hsort : ∀ (l : List (String × Nat × Nat)),
      List.insertionSort extractRel l = [] ↔ l = [] := by
    intro l
    constructor
    · intro hh
      have hperm := List.perm_insertionSort extractRel l
      rw [hh] at hperm
      exact (hperm.symm).eq_nil
    · intro hh
      rw [hh]
      rfl
  rw [hsort, List.filter_eq_nil_iff]
  constructor
  · rintro (h | h)
    · omega
    · intro c hc
      obtain ⟨i, hi⟩ := List.mem_iff_get?.mp hc
      have hmem : (i, c) ∈ cands.enum := List.mem_enum_iff_get?.mpr hi
      have := h _ (List.mem_map_of_mem (fun p => (p.2, S q p.2, p.1)) hmem)
      simpa using this
  · intro h
    right
    intro x hx
    rw [List.mem_map] at hx
    obtain ⟨p, hp, hpe⟩ := hx
    rw [List.mem_enum_iff_get?] at hp
    have hc : p.2 ∈ cands := List.get?_mem hp
    have := h p.2 hc
    rw [← hpe]
    simpa using this

theorem extract_idx_nodup (S : Scorer) (q : String) (cands : List String) (cutoff limit : Nat) :
    ((extract S q cands cutoff limit).map (fun r => r.2.2)).Nodup := by
  unfold extract
  have h0 : ((cands.enum.map (fun p => (p.2, S q p.2, p.1))).map (fun r => r.2.2)).Nodup := by
    rw [List.map_map]
    exact List.nodup_enum_map_fst cands
  have h2 : (((cands.enum.map (fun p => (p.2, S q p.2, p.1))).filter
      (fun r => decide (cutoff ≤ r.2.1))).map (fun r => r.2.2)).Nodup :=
    List.Nodup.sublist (List.Sublist.map _ (List.filter_sublist _)) h0
  have h3 : ((List.insertionSort extractRel ((cands.enum.map (fun p => (p.2, S q p.2, p.1))).filter
      (fun r => decide (cutoff ≤ r.2.1)))).map (fun r => r.2.2)).Nodup :=
    (List.Perm.nodup_iff (List.Perm.map _ (List.perm_insertionSort extractRel _))).mpr h2
  exact List.Nodup.sublist (List.Sublist.map _ (List.take_sublist _ _)) h3

/-! ## Bridging lemmas: built index and the validator -/

theorem mem_tables_scoped {st : IndexState} (hI : BuildInv st) {s x : String}
    (hx : x ∈ (lookupKey st.tables_by_schema s).getD []) : x ∈ st.tables_set := by
  cases h : lookupKey st.tables_by_schema s with
  | none => rw [h] at hx; cases hx
  | some ts => rw [h] at hx; exact hI.tbs_sub s ts h x hx

theorem mem_columns_scoped {st : IndexState} (hI : BuildInv st) {k : String × String} {x : String}
    (hx : x ∈ (lookupKey st.columns_by_table k).getD []) : x ∈ st.columns_set := by
  cases h : lookupKey st.columns_by_table k with
  | none => rw [h] at hx; cases hx
  | some cs => rw [h] at hx; exact hI.cbt_sub k cs h x hx

theorem mem_tables_list_scoped {st : IndexState} (hI : BuildInv st) {s x : String}
    (hx : x ∈ (lookupKey st.tables_list_by_schema s).getD []) : x ∈ st.tables_set := by
  cases h : lookupKey st.tables_list_by_schema s with
  | none => rw [h] at hx; cases hx
  | some ls => rw [h] at hx; exact hI.tlbs_sub s ls h x hx

theorem mem_columns_list_scoped {st : IndexState} (hI : BuildInv st) {k : String × String}
    {x : String} (hx : x ∈ (lookupKey st.columns_list_by_table k).getD []) :
    x ∈ st.columns_set := by
  cases h : lookupKey st.columns_list_by_table k with
  | none => rw [h] at hx; cases hx
  | some ls => rw [h] at hx; exact hI.clbt_sub k ls h x hx

theorem schema_isSome_of_mem_set {st : IndexState} (hI : BuildInv st) {x : String}
    (hx : x ∈ st.schemas_set) : (lookupKey st.schemas_map x).isSome = true :=
  (hI.sl_sm x).mp ((hI.ss_sl x).mp hx)

theorem table_isSome_of_mem_set {st : IndexState} (hI : BuildInv st) {x : String}
    (hx : x ∈ st.tables_set) : (lookupKey st.tables_map x).isSome = true :=
  (hI.tl_tm x).mp ((hI.ts_tl x).mp hx)

theorem column_isSome_of_mem_set {st : IndexState} (hI : BuildInv st) {x : String}
    (hx : x ∈ st.columns_set) : (lookupKey st.columns_map x).isSome = true :=
  (hI.cl_cm x).mp ((hI.cs_cl x).mp hx)

/-- On a consistent index, a successful `*_exists` check guarantees the
exact stage recovers a casing: `_check_exact_match` returns `some`. -/
theorem check_exact_of_exists {st : IndexState} (hI : BuildInv st) (scope term : String)
    (sch tbl : Option String)
    (hex : exists_for_scope st scope (pyNormalize term) sch tbl = true) :
    ∃ orig, get_original_for_scope st scope (pyNormalize term) = some orig ∧
      check_exact_match st scope (pyNormalize term) sch tbl = some orig := by
  have hl : pyLower (pyNormalize term) = pyNormalize term := pyLower_pyNormalize term
  by_cases h1 : scope = "schema"
  · rw [exists_for_scope, if_pos h1] at hex
    have hmem : pyNormalize term ∈ st.schemas_set := by
      have := of_decide_eq_true hex
      rwa [hl] at this
    obtain ⟨orig, horig⟩ := Option.isSome_iff_exists.mp (schema_isSome_of_mem_set hI hmem)
    refine ⟨orig, ?_, ?_⟩
    · rw [get_original_for_scope, if_pos h1]
      exact horig
    · rw [check_exact_match, if_pos h1, if_pos]
      · exact horig
      · show schema_exists st (pyNormalize term) = true
        rw [schema_exists, hl]
        exact decide_eq_true hmem
  · by_cases h2 : scope = "table"
    · rw [exists_for_scope, if_neg h1, if_pos h2] at hex
      have hmem : pyNormalize term ∈ st.tables_set := by
        rw [table_exists] at hex
        by_cases htr : truthy sch = true
        · rw [if_pos htr] at hex
          have := of_decide_eq_true hex
          rw [hl] at this
          exact mem_tables_scoped hI this
        · rw [if_neg htr] at hex
          have := of_decide_eq_true hex
          rwa [hl] at this
      obtain ⟨orig, horig⟩ := Option.isSome_iff_exists.mp (table_isSome_of_mem_set hI hmem)
      refine ⟨orig, ?_, ?_⟩
      · rw [get_original_for_scope, if_neg h1, if_pos h2]
        exact horig
      · rw [check_exact_match, if_neg h1, if_pos h2, if_pos]
        · exact horig
        · exact hex
    · by_cases h3 : scope = "column"
      · rw [exists_for_scope, if_neg h1, if_neg h2, if_pos h3] at hex
        have hmem : pyNormalize term ∈ st.columns_set := by
          rw [column_exists] at hex
          by_cases htr : (truthy sch && truthy tbl) = true
          · rw [if_pos htr] at hex
            have := of_decide_eq_true hex
            rw [hl] at this
            exact mem_columns_scoped hI this
          · rw [if_neg htr] at hex
            have := of_decide_eq_true hex
            rwa [hl] at this
        obtain ⟨orig, horig⟩ := Option.isSome_iff_exists.mp (column_isSome_of_mem_set hI hmem)
        refine ⟨orig, ?_, ?_⟩
        · rw [get_original_for_scope, if_neg h1, if_neg h2, if_pos h3]
          exact horig
        · rw [check_exact_match, if_neg h1, if_neg h2, if_pos h3, if_pos]
          · exact horig
          · exact hex
      · rw [exists_for_scope, if_neg h1, if_neg h2, if_neg h3] at hex
        cases hex

/-- `_check_exact_match` succeeds only when the corresponding `*_exists`
check succeeded. -/
theorem exists_of_check_exact {st : IndexState} {scope term : String}
    {sch tbl : Option String} {orig : String}
    (h : check_exact_match st scope term sch tbl = some orig) :
    exists_for_scope st scope term sch tbl = true := by
  by_cases h1 : scope = "schema"
  · rw [check_exact_match, if_pos h1] at h
    rw [exists_for_scope, if_pos h1]
    by_cases he : schema_exists st term = true
    · exact he
    · rw [if_neg he] at h
      cases h
  · by_cases h2 : scope = "table"
    · rw [check_exact_match, if_neg h1, if_pos h2] at h
      rw [exists_for_scope, if_neg h1, if_pos h2]
      by_cases he : table_exists st term sch = true
      · exact he
      · rw [if_neg he] at h
        cases h
    · by_cases h3 : scope = "column"
      · rw [check_exact_match, if_neg h1, if_neg h2, if_pos h3] at h
        rw [exists_for_scope, if_neg h1, if_neg h2, if_pos h3]
        by_cases he : column_exists st term sch tbl = true
        · exact he
        · rw [if_neg he] at h
          cases h
      · rw [check_exact_match, if_neg h1, if_neg h2, if_neg h3] at h
        cases h

/-- Any casing the global schema map returns is a raw schema name. -/
theorem schemas_map_value_mem {raw : Raw} {k orig : String}
    (h : lookupKey (buildRaw raw).schemas_map k = some orig) : orig ∈ rawSchemaNames raw := by
  rw [lookupKey_schemas_map_buildRaw] at h
  exact List.mem_reverse.mp (List.mem_of_find?_eq_some h)

theorem tables_map_value_mem {raw : Raw} {k orig : String}
    (h : lookupKey (buildRaw raw).tables_map k = some orig) : orig ∈ rawTableNames raw := by
  rw [lookupKey_tables_map_buildRaw] at h
  exact List.mem_of_find?_eq_some h

theorem columns_map_value_mem {raw : Raw} {k orig : String}
    (h : lookupKey (buildRaw raw).columns_map k = some orig) : orig ∈ rawColumnNames raw := by
  rw [lookupKey_columns_map_buildRaw] at h
  exact List.mem_of_find?_eq_some h

/-- Any casing `get_original_for_scope` recovers on a built index is
a name of the raw snapshot. -/
theorem get_original_value_mem {raw : Raw} {scope k orig : String}
    (h : get_original_for_scope (buildRaw raw) scope k = some orig) :
    orig ∈ rawSchemaNames raw ∨ orig ∈ rawTableNames raw ∨ orig ∈ rawColumnNames raw := by
  by_cases h1 : scope = "schema"
  · rw [get_original_for_scope, if_pos h1] at h
    exact Or.inl (schemas_map_value_mem h)
  · by_cases h2 : scope = "table"
    · rw [get_original_for_scope, if_neg h1, if_pos h2] at h
      exact Or.inr (Or.inl (tables_map_value_mem h))
    · by_cases h3 : scope = "column"
      · rw [get_original_for_scope, if_neg h1, if_neg h2, if_pos h3] at h
        exact Or.inr (Or.inr (columns_map_value_mem h))
      · rw [get_original_for_scope, if_neg h1, if_neg h2, if_neg h3] at h
        cases h

/-- Every fuzzy candidate of a consistent index has a recoverable
original casing. -/
theorem candidates_original_isSome {st : IndexState} (hI : BuildInv st) (scope : String)
    (sch tbl : Option String) :
    ∀ c ∈ get_candidates_for_scope st scope sch tbl,
      (get_original_for_scope st scope c).isSome = true := by
  intro c hc
  by_cases h1 : scope = "schema"
  · rw [get_candidates_for_scope, if_pos h1] at hc
    rw [get_original_for_scope, if_pos h1]
    exact (hI.sl_sm c).mp hc
  · by_cases h2 : scope = "table"
    · rw [get_candidates_for_scope, if_neg h1, if_pos h2] at hc
      rw [get_original_for_scope, if_neg h1, if_pos h2]
      by_cases htr : truthy sch = true
      · rw [if_pos htr] at hc
        exact (hI.tl_tm c).mp ((hI.ts_tl c).mp (mem_tables_list_scoped hI hc))
      · rw [if_neg htr] at hc
        exact (hI.tl_tm c).mp hc
    · by_cases h3 : scope = "column"
      · rw [get_candidates_for_scope, if_neg h1, if_neg h2, if_pos h3] at hc
        rw [get_original_for_scope, if_neg h1, if_neg h2, if_pos h3]
        by_cases htr : (truthy sch && truthy tbl) = true
        · rw [if_pos htr] at hc
          exact (hI.cl_cm c).mp ((hI.cs_cl c).mp (mem_columns_list_scoped hI hc))
        · rw [if_neg htr] at hc
          exact (hI.cl_cm c).mp hc
      · rw [get_candidates_for_scope, if_neg h1, if_neg h2, if_neg h3] at hc
        cases hc

theorem find_matches_eq_nil_iff (m : FuzzyMatcher) (S : Scorer) (query : String)
    (cands : List String) (hlim : 1 ≤ m.max_results) :
    find_matches m S query cands none none = [] ↔
      (cands = [] ∨ ∀ c ∈ cands, S (pyNormalize query) c < m.threshold) := by
  unfold find_matches
  by_cases hc : cands = []
  · rw [if_pos hc]
    simp [hc]
  · rw [if_neg hc]
    show (extract S (pyNormalize query) cands m.threshold m.max_results).map _ = [] ↔ _
    rw [List.map_eq_nil_iff, extract_eq_nil_iff S (pyNormalize query) cands m.threshold
      m.max_results hlim]
    simp [hc]

theorem find_matches_mem {m : FuzzyMatcher} {S : Scorer} {query : String} {cands : List String}
    {mt : FuzzyMatch} (h : mt ∈ find_matches m S query cands none none) :
    mt.name ∈ cands ∧ m.threshold ≤ mt.score ∧ mt.score = S (pyNormalize query) mt.name := by
  unfold find_matches at h
  by_cases hc : cands = []
  · rw [if_pos hc] at h
    cases h
  · rw [if_neg hc] at h
    have h2 : mt ∈ (extract S (pyNormalize query) cands m.threshold m.max_results).map
        (fun r => ({ name := r.1, score := r.2.1 } : FuzzyMatch)) := h
    rw [List.mem_map] at h2
    obtain ⟨r, hr, hre⟩ := h2
    obtain ⟨hget, hsc, hcut⟩ := extract_mem hr
    rw [← hre]
    exact ⟨List.get?_mem hget, hcut, hsc⟩

theorem validate_of_exact {st : IndexState} {m : FuzzyMatcher} {S : Scorer}
    {scope search_term : String} {context : Option Context} {orig : String}
    (hck : check_exact_match st scope (pyNormalize search_term)
      (ctxSchema context) (ctxTable context) = some orig)
    (hne : orig ≠ "") :
    validate st m S scope search_term context =
      { status := .valid, matched := some orig, suggestions := none } := by
  show (if truthy (check_exact_match st scope (pyNormalize search_term)
      (ctxSchema context) (ctxTable context)) = true then
    ({ status := .valid, matched := check_exact_match st scope (pyNormalize search_term)
        (ctxSchema context) (ctxTable context), suggestions := none } : ValidationResponse)
  else
    match find_fuzzy_suggestions st m S scope search_term
        (ctxSchema context) (ctxTable context) with
    | some suggestions =>
      { status := .suggestions, matched := none, suggestions := some suggestions }
    | none => { status := .not_found, matched := none, suggestions := some [] }) = _
  rw [hck, show truthy (some orig) = true from decide_eq_true hne, if_pos rfl]

theorem validate_of_not_truthy {st : IndexState} {m : FuzzyMatcher} {S : Scorer}
    {scope search_term : String} {context : Option Context}
    (h : truthy (check_exact_match st scope (pyNormalize search_term)
      (ctxSchema context) (ctxTable context)) = false) :
    validate st m S scope search_term context =
      match find_fuzzy_suggestions st m S scope search_term
          (ctxSchema context) (ctxTable context) with
      | some suggestions =>
        { status := .suggestions, matched := none, suggestions := some suggestions }
      | none => { status := .not_found, matched := none, suggestions := some [] } := by
  show (if truthy (check_exact_match st scope (pyNormalize search_term)
      (ctxSchema context) (ctxTable context)) = true then
    ({ status := .valid, matched := check_exact_match st scope (pyNormalize search_term)
        (ctxSchema context) (ctxTable context), suggestions := none } : ValidationResponse)
  else
    match find_fuzzy_suggestions st m S scope search_term
        (ctxSchema context) (ctxTable context) with
    | some suggestions =>
      { status := .suggestions, matched := none, suggestions := some suggestions }
    | none => { status := .not_found, matched := none, suggestions := some [] }) = _
  rw [h, if_neg (by simp)]

theorem foldl_length_mono {α β : Type} (g : List α → β → List α)
    (hg : ∀ acc x, acc.length ≤ (g acc x).length) :
    ∀ (l : List β) (acc : List α), acc.length ≤ (l.foldl g acc).length := by
  intro l
  induction l with
  | nil => intro acc; exact Nat.le_refl _
  | cons x r ih => intro acc; exact Nat.le_trans (hg acc x) (ih (g acc x))

/-- On a consistent index whose names all have truthy casings, the fuzzy
stage returns `none` exactly when there are no scoped candidates or none
scores at or above the threshold. -/
theorem find_fuzzy_eq_none_iff {st : IndexState} (m : FuzzyMatcher) (S : Scorer)
    (scope term : String) (sch tbl : Option String) (hlim : 1 ≤ m.max_results)
    (hor : ∀ c ∈ get_candidates_for_scope st scope sch tbl,
      ∃ o, get_original_for_scope st scope c = some o ∧ o ≠ "") :
    find_fuzzy_suggestions st m S scope term sch tbl = none ↔
      (get_candidates_for_scope st scope sch tbl = [] ∨
       ∀ c ∈ get_candidates_for_scope st scope sch tbl, S (pyNormalize term) c < m.threshold) := by
  by_cases hc : get_candidates_for_scope st scope sch tbl = []
  · rw [find_fuzzy_suggestions, if_pos hc]
    simp [hc]
  · rw [find_fuzzy_suggestions, if_neg hc]
    by_cases hm : find_matches m S term (get_candidates_for_scope st scope sch tbl) none none = []
    · rw [if_pos hm]
      have := (find_matches_eq_nil_iff m S term _ hlim).mp hm
      simp only [true_iff]
      rcases this with h | h
      · exact Or.inl h
      · exact Or.inr h
    · rw [if_neg hm]
      have hnotall : ¬ (get_candidates_for_scope st scope sch tbl = [] ∨
          ∀ c ∈ get_candidates_for_scope st scope sch tbl,
            S (pyNormalize term) c < m.threshold) := by
        intro hcon
        exact hm ((find_matches_eq_nil_iff m S term _ hlim).mpr hcon)
      have hsug : ¬ ((find_matches m S term (get_candidates_for_scope st scope sch tbl)
          none none).foldl
          (fun acc mt =>
            match get_original_for_scope st scope mt.name with
            | some original_name =>
              if original_name ≠ "" then acc ++ [({ name := original_name, score := mt.score } : Suggestion)]
              else acc
            | none => acc) [] = []) := by
        cases hml : find_matches m S term (get_candidates_for_scope st scope sch tbl)
            none none with
        | nil => exact absurd hml hm
        | cons mt rest =>
          intro hfold
          rw [List.foldl_cons] at hfold
          have hmem : mt ∈ find_matches m S term
              (get_candidates_for_scope st scope sch tbl) none none := by
            rw [hml]
            exact List.mem_cons_self mt rest
          obtain ⟨hname, _, _⟩ := find_matches_mem hmem
          obtain ⟨o, ho, hone⟩ := hor mt.name hname
          have hstep : (match get_original_for_scope st scope mt.name with
              | some original_name =>
                if original_name ≠ "" then
                  ([] : List Suggestion) ++ [({ name := original_name, score := mt.score } : Suggestion)]
                else []
              | none => []) = [({ name := o, score := mt.score } : Suggestion)] := by
            simp only [ho]
            rw [if_pos hone]
            rfl
          have hlen := foldl_length_mono
            (fun acc mt =>
              match get_original_for_scope st scope mt.name with
              | some original_name =>
                if original_name ≠ "" then acc ++ [({ name := original_name, score := mt.score } : Suggestion)]
                else acc
              | none => acc)
            (by
              intro acc mt2
              show acc.length ≤ (match get_original_for_scope st scope mt2.name with
                | some original_name =>
                  if original_name ≠ "" then
                    acc ++ [({ name := original_name, score := mt2.score } : Suggestion)]
                  else acc
                | none => acc).length
              cases hgo : get_original_for_scope st scope mt2.name with
              | none =>
                simp only [hgo]
                exact Nat.le_refl _
              | some o2 =>
                simp only [hgo]
                by_cases ho2 : o2 ≠ ""
                · rw [if_pos ho2, List.length_append]
                  omega
                · rw [if_neg ho2])
            rest [({ name := o, score := mt.score } : Suggestion)]
          rw [hstep] at hfold
          rw [hfold] at hlen
          simp at hlen
      rw [if_neg hsug]
      exact ⟨fun hcon => absurd hcon (Option.some_ne_none _), fun hcon => absurd hcon hnotall⟩

/-! ## Concrete scorers for witnesses and counterexamples -/

/-- A scorer that gives every candidate score 0 (a legitimate
instantiation of the scorer parameter; `fuzz.WRatio` also returns 0 for
an empty query). -/
def zeroScorer : Scorer := fun _ _ => 0

/-- A scorer that gives 100 to an exact (already normalised) match and 0
otherwise; `fuzz.WRatio` also scores identical strings 100. -/
def eqScorer : Scorer := fun q c => if q = c then 100 else 0

/-! ## Claims -/

/-- Claim C1 (amended): on an index built from a raw snapshot, whenever
the normalised (lowercased, trimmed) search term passes the scope's
existence check with the given context AND the recovered original casing
is not the empty string, `validate` returns status `valid` carrying that
original casing — for every fuzzy-matcher configuration and every scorer,
i.e. the fuzzy stage can never influence the result.  (The empty-casing
proviso is forced by `claim_C1_counterexample`: Python's `if exact_match:`
treats an empty-string match as falsy and falls through to the fuzzy
stage.) -/
theorem claim_C1_exact_match_priority (raw : Raw) (scope search_term : String)
    (context : Option Context)
    (hex : exists_for_scope (buildRaw raw) scope (pyNormalize search_term)
      (ctxSchema context) (ctxTable context) = true)
    (hne : get_original_for_scope (buildRaw raw) scope (pyNormalize search_term) ≠ some "") :
    ∃ orig, orig ≠ "" ∧
      get_original_for_scope (buildRaw raw) scope (pyNormalize search_term) = some orig ∧
      ∀ (m : FuzzyMatcher) (S : Scorer),
        validate (buildRaw raw) m S scope search_term context =
          { status := .valid, matched := some orig, suggestions := none } := by
  obtain ⟨orig, ho, hck⟩ := check_exact_of_exists (buildInv_buildRaw raw) scope search_term
    (ctxSchema context) (ctxTable context) hex
  have hone : orig ≠ "" := by
    intro hcon
    rw [hcon] at ho
    exact hne ho
  exact ⟨orig, hone, ho, fun m S => validate_of_exact hck hone⟩

/-- Witness for C1: table `Stud` of schema `Public`, searched as `STUD`
in context schema `public`, validates to `valid` with match `Stud`. -/
theorem claim_C1_witness :
    ∃ orig, orig ≠ "" ∧
      get_original_for_scope (buildRaw [("Public", [("Stud", ["Id"])])]) "table"
        (pyNormalize "STUD") = some orig ∧
      ∀ (m : FuzzyMatcher) (S : Scorer),
        validate (buildRaw [("Public", [("Stud", ["Id"])])]) m S "table" "STUD"
          (some { schema_name := some "public", table_name := none }) =
          { status := .valid, matched := some orig, suggestions := none } :=
  claim_C1_exact_match_priority [("Public", [("Stud", ["Id"])])] "table" "STUD"
    (some { schema_name := some "public", table_name := none }) (by decide) (by decide)

/-- Counterexample to C1 as stated: the snapshot contains a schema whose
name is the empty string.  The search term `""` normalises to an existing
normalised name (the exact existence check succeeds), but `validate`
returns `not_found`, not `valid`: the recovered match `""` is falsy in
`if exact_match:`, so the validator falls through to the fuzzy stage. -/
theorem claim_C1_counterexample :
    exists_for_scope (buildRaw [("", [])]) "schema" (pyNormalize "") none none = true ∧
    (validate (buildRaw [("", [])]) { threshold := 50, max_results := 5 } zeroScorer
      "schema" "" none).status = ValidationStatus.not_found := by
  constructor
  · decide
  · decide

/-- Claim C2 (amended): on an index built from a raw snapshot none of
whose names is the empty string, and with a positive result limit,
`validate` returns `not_found` iff no exact match exists (the scope's
existence check fails) AND (the context-scoped candidate list is empty OR
no candidate scores at or above the matcher's threshold).  (The proviso
excluding empty-string names is forced by `claim_C2_counterexample`.) -/
theorem claim_C2_not_found_iff (raw : Raw) (m : FuzzyMatcher) (S : Scorer)
    (scope search_term : String) (context : Option Context)
    (hlim : 1 ≤ m.max_results)
    (hs : "" ∉ rawSchemaNames raw) (ht : "" ∉ rawTableNames raw)
    (hco : "" ∉ rawColumnNames raw) :
    (validate (buildRaw raw) m S scope search_term context).status =
        ValidationStatus.not_found ↔
      (exists_for_scope (buildRaw raw) scope (pyNormalize search_term)
          (ctxSchema context) (ctxTable context) = false ∧
        (get_candidates_for_scope (buildRaw raw) scope (ctxSchema context)
            (ctxTable context) = [] ∨
         ∀ c ∈ get_candidates_for_scope (buildRaw raw) scope (ctxSchema context)
            (ctxTable context), S (pyNormalize search_term) c < m.threshold)) := by
  have hI := buildInv_buildRaw raw
  have hor : ∀ c ∈ get_candidates_for_scope (buildRaw raw) scope (ctxSchema context)
      (ctxTable context),
      ∃ o, get_original_for_scope (buildRaw raw) scope c = some o ∧ o ≠ "" := by
    intro c hc
    obtain ⟨o, ho⟩ := Option.isSome_iff_exists.mp
      (candidates_original_isSome hI scope (ctxSchema context) (ctxTable context) c hc)
    refine ⟨o, ho, ?_⟩
    intro hoe
    subst hoe
    rcases get_original_value_mem ho with h | h | h
    exacts [hs h, ht h, hco h]
  by_cases hex : exists_for_scope (buildRaw raw) scope (pyNormalize search_term)
      (ctxSchema context) (ctxTable context) = true
  · obtain ⟨orig, ho, hck⟩ := check_exact_of_exists hI scope search_term
      (ctxSchema context) (ctxTable context) hex
    have hone : orig ≠ "" := by
      intro hoe
      subst hoe
      rcases get_original_value_mem ho with h | h | h
      exacts [hs h, ht h, hco h]
    rw [validate_of_exact hck hone]
    constructor
    · intro hcon
      cases hcon
    · rintro ⟨hfalse, -⟩
      rw [hex] at hfalse
      cases hfalse
  · have hexf : exists_for_scope (buildRaw raw) scope (pyNormalize search_term)
        (ctxSchema context) (ctxTable context) = false := by
      cases hb : exists_for_scope (buildRaw raw) scope (pyNormalize search_term)
          (ctxSchema context) (ctxTable context) with
      | false => rfl
      | true => exact absurd hb hex
    have hck : check_exact_match (buildRaw raw) scope (pyNormalize search_term)
        (ctxSchema context) (ctxTable context) = none := by
      cases hc : check_exact_match (buildRaw raw) scope (pyNormalize search_term)
          (ctxSchema context) (ctxTable context) with
      | none => rfl
      | some orig => exact absurd (exists_of_check_exact hc) hex
    have htr : truthy (check_exact_match (buildRaw raw) scope (pyNormalize search_term)
        (ctxSchema context) (ctxTable context)) = false := by
      rw [hck]
      rfl
    rw [validate_of_not_truthy htr]
    cases hff : find_fuzzy_suggestions (buildRaw raw) m S scope search_term
        (ctxSchema context) (ctxTable context) with
    | some sugg =>
      have hnot : ¬ (get_candidates_for_scope (buildRaw raw) scope (ctxSchema context)
          (ctxTable context) = [] ∨
          ∀ c ∈ get_candidates_for_scope (buildRaw raw) scope (ctxSchema context)
            (ctxTable context), S (pyNormalize search_term) c < m.threshold) := by
        intro hcon
        have := (find_fuzzy_eq_none_iff m S scope search_term (ctxSchema context)
          (ctxTable context) hlim hor).mpr hcon
        rw [hff] at this
        cases this
      simp only [hff]
      constructor
      · intro hcon
        cases hcon
      · rintro ⟨-, hrest⟩
        exact absurd hrest hnot
    | none =>
      have hiff := (find_fuzzy_eq_none_iff m S scope search_term (ctxSchema context)
        (ctxTable context) hlim hor).mp hff
      simp only [hff]
      exact ⟨fun _ => ⟨hexf, hiff⟩, fun _ => trivial⟩

/-- Witness for C2 at a concrete instance: searching for `zzz` among
tables with the zero scorer yields `not_found`, and the iff's right-hand
side holds. -/
theorem claim_C2_witness :
    (validate (buildRaw [("Public", [("Stud", ["Id"])])]) { threshold := 50, max_results := 5 }
        zeroScorer "table" "zzz" none).status = ValidationStatus.not_found ↔
      (exists_for_scope (buildRaw [("Public", [("Stud", ["Id"])])]) "table"
          (pyNormalize "zzz") none none = false ∧
        (get_candidates_for_scope (buildRaw [("Public", [("Stud", ["Id"])])]) "table"
            none none = [] ∨
         ∀ c ∈ get_candidates_for_scope (buildRaw [("Public", [("Stud", ["Id"])])]) "table"
            none none, zeroScorer (pyNormalize "zzz") c < 50)) :=
  claim_C2_not_found_iff [("Public", [("Stud", ["Id"])])]
    { threshold := 50, max_results := 5 } zeroScorer "table" "zzz" none
    (by decide) (by decide) (by decide) (by decide)

/-- Counterexample to C2 as stated: with a schema named by the empty
string, `validate` returns `not_found` although an exact match exists
(the existence check succeeds), because the falsy recovered casing
bypasses the `valid` branch and the zero scorer then rejects all
candidates. -/
theorem claim_C2_counterexample :
    (validate (buildRaw [("", [])]) { threshold := 50, max_results := 5 } zeroScorer
      "schema" "" none).status = ValidationStatus.not_found ∧
    exists_for_scope (buildRaw [("", [])]) "schema" (pyNormalize "") none none = true := by
  constructor
  · decide
  · decide

/-- Claim C3: `find_matches` on any scorer, query, candidate list,
threshold 0..100 and limit ≥ 1 returns at most `limit` entries, none
scoring strictly below the threshold, sorted by descending score; the
result is exactly the extraction pipeline's output, whose triples are
sorted by descending score with ties broken by strictly increasing
candidate input index, each triple faithfully recording the candidate at
its input position and its score; and an empty candidate list yields an
empty result. -/
theorem claim_C3_find_matches_contract (m : FuzzyMatcher) (S : Scorer) (query : String)
    (cands : List String) (threshold limit : Nat) (hthr : threshold ≤ 100) (hlim : 1 ≤ limit) :
    (find_matches m S query cands (some threshold) (some limit)).length ≤ limit ∧
    (∀ fm ∈ find_matches m S query cands (some threshold) (some limit), threshold ≤ fm.score) ∧
    List.Pairwise (fun a b => b.score ≤ a.score)
      (find_matches m S query cands (some threshold) (some limit)) ∧
    (cands = [] → find_matches m S query cands (some threshold) (some limit) = []) ∧
    find_matches m S query cands (some threshold) (some limit) =
      (extract S (pyNormalize query) cands threshold limit).map
        (fun r => { name := r.1, score := r.2.1 }) ∧
    List.Pairwise (fun a b => b.2.1 < a.2.1 ∨ (a.2.1 = b.2.1 ∧ a.2.2 < b.2.2))
      (extract S (pyNormalize query) cands threshold limit) ∧
    (∀ r ∈ extract S (pyNormalize query) cands threshold limit,
      cands.get? r.2.2 = some r.1 ∧ r.2.1 = S (pyNormalize query) r.1 ∧ threshold ≤ r.2.1) := by
  have heq : find_matches m S query cands (some threshold) (some limit) =
      (extract S (pyNormalize query) cands threshold limit).map
        (fun r => { name := r.1, score := r.2.1 }) := by
    unfold find_matches
    by_cases hc : cands = []
    · rw [if_pos hc]
      subst hc
      simp [extract]
    · rw [if_neg hc]
      rfl
  have hstrict : List.Pairwise (fun a b => b.2.1 < a.2.1 ∨ (a.2.1 = b.2.1 ∧ a.2.2 < b.2.2))
      (extract S (pyNormalize query) cands threshold limit) := by
    have h1 := extract_sorted S (pyNormalize query) cands threshold limit
    have h2 : List.Pairwise (fun a b : String × Nat × Nat => a.2.2 ≠ b.2.2)
        (extract S (pyNormalize query) cands threshold limit) := by
      have := extract_idx_nodup S (pyNormalize query) cands threshold limit
      rw [List.Nodup, List.pairwise_map] at this
      exact this
    have h3 := List.Pairwise.and h1 h2
    refine h3.imp ?_
    intro a b hab
    obtain ⟨hr, hne⟩ := hab
    rw [extractRel] at hr
    rcases hr with h | ⟨he, hle⟩
    · exact Or.inl h
    · exact Or.inr ⟨he, Nat.lt_of_le_of_ne hle hne⟩
  refine ⟨?_, ?_, ?_, ?_, heq, hstrict, fun r hr => extract_mem hr⟩
  · rw [heq, List.length_map]
    exact extract_length S (pyNormalize query) cands threshold limit
  · intro fm hfm
    rw [heq, List.mem_map] at hfm
    obtain ⟨r, hr, hre⟩ := hfm
    obtain ⟨-, -, hcut⟩ := extract_mem hr
    rw [← hre]
    exact hcut
  · rw [heq]
    rw [List.pairwise_map]
    refine hstrict.imp ?_
    intro a b hab
    show b.2.1 ≤ a.2.1
    rcases hab with h | ⟨he, -⟩
    · omega
    · omega
  · intro hc
    rw [find_matches, if_pos hc]

/-- Witness for C3 at a concrete instance. -/
theorem claim_C3_witness :
    (find_matches { threshold := 50, max_results := 5 } eqScorer "STUD"
        ["stud", "other"] (some 50) (some 5)).length ≤ 5 ∧
    (∀ fm ∈ find_matches { threshold := 50, max_results := 5 } eqScorer "STUD"
        ["stud", "other"] (some 50) (some 5), 50 ≤ fm.score) ∧
    List.Pairwise (fun a b => b.score ≤ a.score)
      (find_matches { threshold := 50, max_results := 5 } eqScorer "STUD"
        ["stud", "other"] (some 50) (some 5)) ∧
    (["stud", "other"] = [] → find_matches { threshold := 50, max_results := 5 } eqScorer "STUD"
        ["stud", "other"] (some 50) (some 5) = []) ∧
    find_matches { threshold := 50, max_results := 5 } eqScorer "STUD"
        ["stud", "other"] (some 50) (some 5) =
      (extract eqScorer (pyNormalize "STUD") ["stud", "other"] 50 5).map
        (fun r => { name := r.1, score := r.2.1 }) ∧
    List.Pairwise (fun a b => b.2.1 < a.2.1 ∨ (a.2.1 = b.2.1 ∧ a.2.2 < b.2.2))
      (extract eqScorer (pyNormalize "STUD") ["stud", "other"] 50 5) ∧
    (∀ r ∈ extract eqScorer (pyNormalize "STUD") ["stud", "other"] 50 5,
      ["stud", "other"].get? r.2.2 = some r.1 ∧
        r.2.1 = eqScorer (pyNormalize "STUD") r.1 ∧ 50 ≤ r.2.1) :=
  claim_C3_find_matches_contract { threshold := 50, max_results := 5 } eqScorer "STUD"
    ["stud", "other"] 50 5 (by decide) (by decide)

/-- Claim C10: an empty-string context value never scopes a lookup.
Passing `schema=""` (or `table=""`) to `table_exists`, `column_exists`
or `get_candidates_for_scope` behaves exactly like omitting the
argument, because Python's `if schema:` / `if schema and table:` treats
the empty string as falsy. -/
theorem claim_C10_empty_context_is_absent (st : IndexState) (name scope : String)
    (sch tbl : Option String) :
    table_exists st name (some "") = table_exists st name none ∧
    column_exists st name (some "") tbl = column_exists st name none tbl ∧
    column_exists st name sch (some "") = column_exists st name sch none ∧
    get_candidates_for_scope st scope (some "") tbl =
      get_candidates_for_scope st scope none tbl ∧
    get_candidates_for_scope st scope sch (some "") =
      get_candidates_for_scope st scope sch none := by
  refine ⟨rfl, ?_, ?_, ?_, ?_⟩
  · simp [column_exists, truthy]
  · simp [column_exists, truthy]
  · simp [get_candidates_for_scope, truthy]
  · simp [get_candidates_for_scope, truthy]

theorem find?_lower_eq {names : List String} {n : String} (hm : n ∈ names)
    (hinj : ∀ n1 ∈ names, ∀ n2 ∈ names, pyLower n1 = pyLower n2 → n1 = n2) :
    names.find? (fun x => decide (pyLower x = pyLower n)) = some n := by
  cases hf : names.find? (fun x => decide (pyLower x = pyLower n)) with
  | none =>
    exfalso
    have hall := List.find?_eq_none.mp hf
    exact absurd (decide_eq_true (rfl : pyLower n = pyLower n)) (hall n hm)
  | some m =>
    have hp := List.find?_some hf
    have hmem := List.mem_of_find?_eq_some hf
    have := hinj m hmem n hm (of_decide_eq_true hp)
    rw [this]

/-- Claim C5 (amended): on an index built from a raw snapshot in which no
two distinct original names at the same level (schema / table / column)
share a normalised form, looking up `pyLower n` through the
scope-appropriate `get_original_*` returns exactly the original name `n`,
byte for byte, for every name `n` present in the snapshot.  (The
injectivity proviso is forced by `claim_C5_counterexample`: when two
casings collide, the schema map keeps the LAST write and the table /
column maps keep the first, so at most one of the colliding names can be
returned.) -/
theorem claim_C5_original_casing_roundtrip (raw : Raw)
    (hs : ∀ n1 ∈ rawSchemaNames raw, ∀ n2 ∈ rawSchemaNames raw,
      pyLower n1 = pyLower n2 → n1 = n2)
    (ht : ∀ n1 ∈ rawTableNames raw, ∀ n2 ∈ rawTableNames raw,
      pyLower n1 = pyLower n2 → n1 = n2)
    (hc : ∀ n1 ∈ rawColumnNames raw, ∀ n2 ∈ rawColumnNames raw,
      pyLower n1 = pyLower n2 → n1 = n2) :
    (∀ n ∈ rawSchemaNames raw, get_original_schema (buildRaw raw) (pyLower n) = some n) ∧
    (∀ n ∈ rawTableNames raw, get_original_table (buildRaw raw) (pyLower n) = some n) ∧
    (∀ n ∈ rawColumnNames raw, get_original_column (buildRaw raw) (pyLower n) = some n) := by
  refine ⟨?_, ?_, ?_⟩
  · intro n hn
    rw [get_original_schema, lookupKey_schemas_map_buildRaw]
    exact find?_lower_eq (List.mem_reverse.mpr hn)
      (fun n1 h1 n2 h2 => hs n1 (List.mem_reverse.mp h1) n2 (List.mem_reverse.mp h2))
  · intro n hn
    rw [get_original_table, lookupKey_tables_map_buildRaw]
    exact find?_lower_eq hn ht
  · intro n hn
    rw [get_original_column, lookupKey_columns_map_buildRaw]
    exact find?_lower_eq hn hc

/-- Witness for C5 at a concrete collision-free snapshot. -/
theorem claim_C5_witness :
    (∀ n ∈ rawSchemaNames [("Public", [("Stud", ["Id"])])],
      get_original_schema (buildRaw [("Public", [("Stud", ["Id"])])]) (pyLower n) = some n) ∧
    (∀ n ∈ rawTableNames [("Public", [("Stud", ["Id"])])],
      get_original_table (buildRaw [("Public", [("Stud", ["Id"])])]) (pyLower n) = some n) ∧
    (∀ n ∈ rawColumnNames [("Public", [("Stud", ["Id"])])],
      get_original_column (buildRaw [("Public", [("Stud", ["Id"])])]) (pyLower n) = some n) :=
  claim_C5_original_casing_roundtrip [("Public", [("Stud", ["Id"])])]
    (by decide) (by decide) (by decide)

/-- Counterexample to C5 as stated: two raw schema keys `Public` and
`PUBLIC` share the normalised form `public`; for the present name
`Public`, the lookup returns `PUBLIC` (the last write), not `Public`
byte-for-byte. -/
theorem claim_C5_counterexample :
    "Public" ∈ rawSchemaNames [("Public", []), ("PUBLIC", [])] ∧
    get_original_schema (buildRaw [("Public", []), ("PUBLIC", [])]) (pyLower "Public") =
      some "PUBLIC" ∧
    ("PUBLIC" : String) ≠ "Public" := by
  refine ⟨by decide, by decide, by decide⟩

/-- Claim C6 (amended): on a built index the column candidate list of a
(schema, table) pair is exactly the normalised column names, in raw
order, of the pair's LAST raw occurrence — duplicates within that raw
list are retained (only the per-pair set deduplicates, not the candidate
list).  When the columns of that occurrence are pairwise distinct and no
two share a normalised form, the candidate list reproduces each column
name exactly once (in normalised form).  (Both provisos are forced by
`claim_C6_counterexample` and the reinitialisation shown by C7.) -/
theorem claim_C6_column_list_roundtrip (raw : Raw) (S T : String) (cols : List String)
    (hS : S ≠ "") (hT : T ≠ "")
    (hlast : lastPairCols raw (pyLower S, pyLower T) = some cols) :
    get_candidates_for_scope (buildRaw raw) "column" (some S) (some T) = cols.map pyLower ∧
    (cols.Nodup → (∀ c1 ∈ cols, ∀ c2 ∈ cols, pyLower c1 = pyLower c2 → c1 = c2) →
      (cols.map pyLower).Nodup) := by
  constructor
  · have hb : (truthy (some S) && truthy (some T)) = true := by
      simp [truthy, hS, hT]
    rw [get_candidates_for_scope, if_neg (by decide), if_neg (by decide), if_pos hb,
      clbt_buildRaw, if_pos (rfl : ("column" : String) = "column")]
    show (Option.map (fun l => List.map pyLower l)
      (lastPairCols raw (pyLower S, pyLower T))).getD [] = List.map pyLower cols
    rw [hlast]
    rfl
  · intro hnd hinj
    exact List.Nodup.map_on hinj hnd

/-- Witness for C6 at a concrete snapshot. -/
theorem claim_C6_witness :
    get_candidates_for_scope (buildRaw [("S", [("T", ["Id", "Name"])])]) "column"
      (some "S") (some "T") = ["Id", "Name"].map pyLower ∧
    ((["Id", "Name"] : List String).Nodup →
      (∀ c1 ∈ (["Id", "Name"] : List String), ∀ c2 ∈ (["Id", "Name"] : List String),
        pyLower c1 = pyLower c2 → c1 = c2) →
      ((["Id", "Name"] : List String).map pyLower).Nodup) :=
  claim_C6_column_list_roundtrip [("S", [("T", ["Id", "Name"])])] "S" "T" ["Id", "Name"]
    (by decide) (by decide) (by decide)

/-- Counterexample to C6 as stated: a raw column list containing `Id` and
`ID` (the same normalised name twice) yields the candidate list
`["id", "id"]` for the pair — the name is NOT reproduced exactly once,
because the per-pair candidate list is appended to unconditionally. -/
theorem claim_C6_counterexample :
    get_candidates_for_scope (buildRaw [("S", [("T", ["Id", "ID"])])]) "column"
      (some "S") (some "T") = ["id", "id"] ∧
    ¬ (get_candidates_for_scope (buildRaw [("S", [("T", ["Id", "ID"])])]) "column"
      (some "S") (some "T")).Nodup := by
  refine ⟨by decide, by decide⟩

/-- Claim C7 (amended): when the same normalised (schema, table) pair
occurs twice in the raw input, the second occurrence's columns REPLACE
the first occurrence's per-pair column set and list rather than
extending them: the build reinitialises both structures at every table
occurrence, so the final per-pair columns are exactly the last
occurrence's. -/
theorem claim_C7_duplicate_pair_replaces (raw : Raw) (k : String × String)
    (cols : List String) (hlast : lastPairCols raw k = some cols) :
    lookupKey (buildRaw raw).columns_by_table k = some (listToSet (cols.map pyLower)) ∧
    lookupKey (buildRaw raw).columns_list_by_table k = some (cols.map pyLower) := by
  rw [cbt_buildRaw, clbt_buildRaw, hlast]
  exact ⟨rfl, rfl⟩

/-- Witness for C7: the pair (s, t) occurs twice (`T` then `t`); the
final column set is that of the second occurrence only. -/
theorem claim_C7_witness :
    lookupKey (buildRaw [("S", [("T", ["a"]), ("t", ["b"])])]).columns_by_table ("s", "t") =
      some (listToSet ((["b"] : List String).map pyLower)) ∧
    lookupKey (buildRaw [("S", [("T", ["a"]), ("t", ["b"])])]).columns_list_by_table
      ("s", "t") = some ((["b"] : List String).map pyLower) :=
  claim_C7_duplicate_pair_replaces [("S", [("T", ["a"]), ("t", ["b"])])] ("s", "t") ["b"]
    (by decide)

/-- Counterexample to C7 as stated: schema `S` declares the same table
twice, as `T` with column `a` and as `t` with column `b`.  The claim
predicts the second entry EXTENDS the first (so `a` stays in the
per-pair column set); in fact the set is reinitialised and only `b`
remains. -/
theorem claim_C7_counterexample :
    lookupKey (buildRaw [("S", [("T", ["a"]), ("t", ["b"])])]).columns_by_table ("s", "t") =
      some ["b"] ∧
    "a" ∉ (lookupKey (buildRaw [("S", [("T", ["a"]), ("t", ["b"])])]).columns_by_table
      ("s", "t")).getD [] := by
  refine ⟨by decide, by decide⟩

/-- Claim C9 (amended): structural invariants of every built index.
Every normalised key of each casing map holds exactly one value, with the
FIRST write winning for `tables_map` and `columns_map` but the LAST write
winning for `schemas_map` (the schema assignment is unguarded); sets and
candidate lists have identical membership at every level, globally and
per key; `tables_list` and `columns_list` are duplicate-free, while
`schemas_list` carries one entry per raw schema key (so it repeats a
normalised name when two raw keys collide — see
`claim_C9_counterexample`); and `tables_by_schema` / `columns_by_table`
are defined exactly for the raw snapshot's normalised schema names and
(schema, table) pairs. -/
theorem claim_C9_build_invariants (raw : Raw) :
    (∀ k, lookupKey (buildRaw raw).schemas_map k =
      (rawSchemaNames raw).reverse.find? (fun n => decide (pyLower n = k))) ∧
    (∀ k, lookupKey (buildRaw raw).tables_map k =
      (rawTableNames raw).find? (fun n => decide (pyLower n = k))) ∧
    (∀ k, lookupKey (buildRaw raw).columns_map k =
      (rawColumnNames raw).find? (fun n => decide (pyLower n = k))) ∧
    (∀ x, x ∈ (buildRaw raw).schemas_set ↔ x ∈ (buildRaw raw).schemas_list) ∧
    (∀ x, x ∈ (buildRaw raw).tables_set ↔ x ∈ (buildRaw raw).tables_list) ∧
    (∀ x, x ∈ (buildRaw raw).columns_set ↔ x ∈ (buildRaw raw).columns_list) ∧
    (buildRaw raw).tables_list.Nodup ∧
    (buildRaw raw).columns_list.Nodup ∧
    (buildRaw raw).schemas_list = (rawSchemaNames raw).map pyLower ∧
    (∀ s, (lookupKey (buildRaw raw).tables_by_schema s).isSome = true ↔
      (lookupKey (buildRaw raw).tables_list_by_schema s).isSome = true) ∧
    (∀ s ts ls, lookupKey (buildRaw raw).tables_by_schema s = some ts →
      lookupKey (buildRaw raw).tables_list_by_schema s = some ls → ∀ x, x ∈ ts ↔ x ∈ ls) ∧
    (∀ k, (lookupKey (buildRaw raw).columns_by_table k).isSome = true ↔
      (lookupKey (buildRaw raw).columns_list_by_table k).isSome = true) ∧
    (∀ k cs ls, lookupKey (buildRaw raw).columns_by_table k = some cs →
      lookupKey (buildRaw raw).columns_list_by_table k = some ls → ∀ x, x ∈ cs ↔ x ∈ ls) ∧
    (∀ s, (lookupKey (buildRaw raw).tables_by_schema s).isSome = true ↔
      s ∈ (rawSchemaNames raw).map pyLower) ∧
    (∀ k, (lookupKey (buildRaw raw).columns_by_table k).isSome = true ↔ k ∈ rawPairs raw) := by
  have hI := buildInv_buildRaw raw
  exact ⟨fun k => lookupKey_schemas_map_buildRaw raw k,
    fun k => lookupKey_tables_map_buildRaw raw k,
    fun k => lookupKey_columns_map_buildRaw raw k,
    hI.ss_sl, hI.ts_tl, hI.cs_cl, hI.tl_nd, hI.cl_nd,
    schemas_list_buildRaw raw,
    hI.tbs_keys, hI.tbs_memb, hI.cbt_keys, hI.cbt_memb,
    fun s => tbs_keys_buildRaw raw s,
    fun k => cbt_keys_buildRaw raw k⟩

/-- Witness for C9: the per-schema set and list of `public` coincide in
membership on a concrete snapshot. -/
theorem claim_C9_witness :
    ∀ x, x ∈ (["stud"] : List String) ↔ x ∈ (["stud"] : List String) :=
  (claim_C9_build_invariants
    [("Public", [("Stud", ["Id"])])]).2.2.2.2.2.2.2.2.2.2.1
    "public" ["stud"] ["stud"] (by decide) (by decide)

/-- Counterexample to C9 as stated: with raw schema keys `Public` and
`PUBLIC`, `schemas_list` holds the normalised name twice (the global
list does contain duplicate normalised entries), and `schemas_map` holds
the LAST write `PUBLIC`, not the first. -/
theorem claim_C9_counterexample :
    (buildRaw [("Public", []), ("PUBLIC", [])]).schemas_list = ["public", "public"] ∧
    ¬ (buildRaw [("Public", []), ("PUBLIC", [])]).schemas_list.Nodup ∧
    lookupKey (buildRaw [("Public", []), ("PUBLIC", [])]).schemas_map "public" =
      some "PUBLIC" := by
  refine ⟨by decide, by decide, by decide⟩

/-! ## Dynamic build agrees with the typed build on well-shaped data -/

/-- A well-shaped pickle: `{"schemas": ...}`. -/
def rawToDyn (raw : Raw) : Dyn :=
  .dict [("schemas", schemasToDyn raw)]

theorem processColumnsDyn_str (s t : String) (cols : List String) :
    ∀ st : IndexState,
    processColumnsDyn st s t (cols.map Dyn.str) = .ok (processColumns st s t cols) := by
  induction cols with
  | nil => intro st; rfl
  | cons c r ih =>
    intro st
    show processColumnsDyn (colStep st s t c) s t (r.map Dyn.str) = _
    rw [ih]
    rfl

theorem processTablesDyn_typed (s : String) (tbls : List (String × List String)) :
    ∀ st : IndexState,
    processTablesDyn st s (tbls.map (fun tc => (tc.1, Dyn.pylist (tc.2.map Dyn.str)))) =
      .ok (processTables st s tbls) := by
  induction tbls with
  | nil => intro st; rfl
  | cons tc r ih =>
    intro st
    show (match processColumnsDyn (tableStepPre st s tc.1) s tc.1 (tc.2.map Dyn.str) with
      | Except.error e => (Except.error e : Except (String × IndexState) IndexState)
      | Except.ok st2 => processTablesDyn st2 s
          (r.map (fun (p : String × List String) =>
            (p.1, Dyn.pylist (p.2.map Dyn.str))))) = _
    rw [processColumnsDyn_str]
    show processTablesDyn (processColumns (tableStepPre st s tc.1) s tc.1 tc.2) s
      (r.map (fun (p : String × List String) => (p.1, Dyn.pylist (p.2.map Dyn.str)))) = _
    rw [ih]
    rfl

theorem processSchemasDyn_typed (raw : Raw) : ∀ st : IndexState,
    processSchemasDyn st (raw.map (fun sc =>
      (sc.1, Dyn.dict [("tables", Dyn.dict (sc.2.map (fun tc =>
        (tc.1, Dyn.pylist (tc.2.map Dyn.str)))))]))) = .ok (processSchemas st raw) := by
  induction raw with
  | nil => intro st; rfl
  | cons sc rest ih =>
    intro st
    show (match processTablesDyn (schemaStepPre st sc.1) sc.1 (sc.2.map (fun tc =>
        (tc.1, Dyn.pylist (tc.2.map Dyn.str)))) with
      | Except.error e => (Except.error e : Except (String × IndexState) IndexState)
      | Except.ok st2 => processSchemasDyn st2
          (rest.map (fun (p : String × List (String × List String)) =>
          (p.1, Dyn.dict [("tables", Dyn.dict (p.2.map (fun (q : String × List String) =>
            (q.1, Dyn.pylist (q.2.map Dyn.str)))))]))) ) = _
    rw [processTablesDyn_typed]
    show processSchemasDyn (processTables (schemaStepPre st sc.1) sc.1 sc.2)
      (rest.map (fun (p : String × List (String × List String)) =>
        (p.1, Dyn.dict [("tables", Dyn.dict (p.2.map (fun (q : String × List String) =>
          (q.1, Dyn.pylist (q.2.map Dyn.str)))))]))) = _
    rw [ih]
    rfl

/-- The fallible dynamic build, applied to a well-shaped snapshot,
succeeds and produces the typed build's result — independently of the
prior state. -/
theorem buildFromRawDyn_schemasToDyn (st : IndexState) (raw : Raw) :
    buildFromRawDyn st (rawToDyn raw) = .ok (buildRaw raw) := by
  show processSchemasDyn { emptyIndex with exported_at := none, schemas := schemasToDyn raw }
    (raw.map (fun sc =>
      (sc.1, Dyn.dict [("tables", Dyn.dict (sc.2.map (fun tc =>
        (tc.1, Dyn.pylist (tc.2.map Dyn.str)))))]))) = .ok (buildRaw raw)
  rw [processSchemasDyn_typed]
  rfl

/-- Claim C4 (amended, positive part): loading a well-shaped snapshot
always succeeds and fully replaces the index state: the result is
entirely determined by the snapshot, the environment name and the clock —
no field of the prior cache survives.  (The claim's further assertion
that a FAILED load leaves the previous state unchanged is refuted by
`claim_C4_counterexample`: the build resets the structures in place
before iterating, so a malformed snapshot that raises mid-build leaves a
reset, partially rebuilt index behind, with `is_loaded` still `true`.) -/
theorem claim_C4_load_replaces_state (c : FullCache) (raw : Raw) (env : String) (now : Nat) :
    loadModel c (rawToDyn raw) env now =
      .ok { idx := buildRaw raw, environment := env, loaded_at := some now,
            is_loaded := true } := by
  unfold loadModel
  simp only [buildFromRawDyn_schemasToDyn]

/-- Counterexample to C4 as stated: a cache that successfully loaded the
snapshot `{A: {T: [c]}}` (so `tables_set = ["t"]`, `is_loaded = true`)
is then fed the malformed snapshot `{"schemas": "oops"}`.  The load
raises (`.items()` on a string), but the previous lookup state is NOT
left unchanged: the error state carries a reset index (empty
`tables_set`) while `is_loaded` still reads `true` — readers observe the
partial mutation. -/
theorem claim_C4_counterexample :
    loadModel
        { idx := buildRaw [("A", [("T", ["c"])])], environment := "dev",
          loaded_at := some 0, is_loaded := true }
        (Dyn.dict [("schemas", Dyn.str "oops")]) "dev" 1 =
      Except.error ("AttributeError: items",
        { idx := { emptyIndex with schemas := Dyn.str "oops" }, environment := "dev",
          loaded_at := some 0, is_loaded := true }) ∧
    (buildRaw [("A", [("T", ["c"])])]).tables_set = ["t"] ∧
    ({ emptyIndex with schemas := Dyn.str "oops" } : IndexState).tables_set = [] := by
  refine ⟨rfl, by decide, rfl⟩


/-! ## Typeahead endpoint lemmas -/

theorem foldl_length_le {α β : Type} (g : List α → β → List α)
    (hg : ∀ acc x, (g acc x).length ≤ acc.length + 1) :
    ∀ (l : List β) (acc : List α), (l.foldl g acc).length ≤ acc.length + l.length := by
  intro l
  induction l with
  | nil => intro acc; simp
  | cons x r ih =>
    intro acc
    calc (r.foldl g (g acc x)).length ≤ (g acc x).length + r.length := ih (g acc x)
    _ ≤ (acc.length + 1) + r.length := by
        have := hg acc x
        omega
    _ = acc.length + (x :: r).length := by
        simp
        omega

theorem foldl_nodup {α β : Type} (g : List α → β → List α)
    (hg : ∀ acc x, acc.Nodup → (g acc x).Nodup) :
    ∀ (l : List β) (acc : List α), acc.Nodup → (l.foldl g acc).Nodup := by
  intro l
  induction l with
  | nil => intro acc h; exact h
  | cons x r ih => intro acc h; exact ih (g acc x) (hg acc x h)

theorem foldl_provenance {α β : Type} (g : List α → β → List α) (P : β → α → Prop)
    (hg : ∀ acc x r, r ∈ g acc x → r ∈ acc ∨ P x r) :
    ∀ (l : List β) (acc : List α) (r : α), r ∈ l.foldl g acc → r ∈ acc ∨ ∃ x ∈ l, P x r := by
  intro l
  induction l with
  | nil => intro acc r h; exact Or.inl h
  | cons x rest ih =>
    intro acc r h
    rcases ih (g acc x) r h with h2 | ⟨y, hy, hp⟩
    · rcases hg acc x r h2 with h3 | h3
      · exact Or.inl h3
      · exact Or.inr ⟨x, List.mem_cons_self x rest, h3⟩
    · exact Or.inr ⟨y, List.mem_cons_of_mem x hy, hp⟩

/-- The per-match accumulation step of the suggest endpoint: resolve a
matched search key through the key-to-qualified-name dict and
`get_original_qualified`, then append the display string unless it is
falsy or already present. -/
def suggestStep (st : IndexState) (scope : String) (ktq : List (String × String))
    (results : List String) (r : String × Nat × Nat) : List String :=
  match lookupKey ktq r.1 with
  | some qualified_lower =>
    match get_original_qualified st scope qualified_lower with
    | some original =>
      if original ≠ "" ∧ original ∉ results then results ++ [original] else results
    | none => results
  | none => results

theorem suggestModel_eq_foldl (st : IndexState) (S : Scorer) (scope q : String)
    (schema_name table_name : Option String) (threshold limit : Nat) :
    suggestModel st S scope q schema_name table_name threshold limit =
      (extract S (pyNormalize q) ((get_searchable_candidates_for_scope st scope schema_name
          table_name).map (fun c => c.1)) threshold limit).foldl
        (suggestStep st scope ((get_searchable_candidates_for_scope st scope schema_name
          table_name).foldl (fun m c => dictSet m c.1 c.2) [])) [] := by
  rw [suggestModel]
  by_cases hc : get_searchable_candidates_for_scope st scope schema_name table_name = []
  · rw [if_pos hc, hc]
    simp [extract]
  · rw [if_neg hc]
    rfl

theorem suggestStep_length (st : IndexState) (scope : String)
    (ktq : List (String × String)) (acc : List String) (x : String × Nat × Nat) :
    (suggestStep st scope ktq acc x).length ≤ acc.length + 1 := by
  cases h1 : lookupKey ktq x.1 with
  | none =>
    simp only [suggestStep, h1]
    omega
  | some q1 =>
    cases h2 : get_original_qualified st scope q1 with
    | none =>
      simp only [suggestStep, h1, h2]
      omega
    | some orig =>
      simp only [suggestStep, h1, h2]
      by_cases h3 : orig ≠ "" ∧ orig ∉ acc
      · rw [if_pos h3, List.length_append]
        simp
      · rw [if_neg h3]
        omega

theorem suggestStep_nodup (st : IndexState) (scope : String)
    (ktq : List (String × String)) (acc : List String) (x : String × Nat × Nat)
    (hnd : acc.Nodup) : (suggestStep st scope ktq acc x).Nodup := by
  cases h1 : lookupKey ktq x.1 with
  | none =>
    simp only [suggestStep, h1]
    exact hnd
  | some q1 =>
    cases h2 : get_original_qualified st scope q1 with
    | none =>
      simp only [suggestStep, h1, h2]
      exact hnd
    | some orig =>
      simp only [suggestStep, h1, h2]
      by_cases h3 : orig ≠ "" ∧ orig ∉ acc
      · rw [if_pos h3, List.nodup_append]
        exact ⟨hnd, List.nodup_singleton _, by
          intro a ha hb
          rw [List.mem_singleton] at hb
          subst hb
          exact h3.2 ha⟩
      · rw [if_neg h3]
        exact hnd

theorem suggestStep_provenance (st : IndexState) (scope : String)
    (ktq : List (String × String)) (acc : List String) (x : String × Nat × Nat)
    (r : String) (hr : r ∈ suggestStep st scope ktq acc x) :
    r ∈ acc ∨ (r ≠ "" ∧ (lookupKey ktq x.1).bind
      (fun qualified_lower => get_original_qualified st scope qualified_lower) = some r) := by
  cases h1 : lookupKey ktq x.1 with
  | none =>
    simp only [suggestStep, h1] at hr
    exact Or.inl hr
  | some q1 =>
    cases h2 : get_original_qualified st scope q1 with
    | none =>
      simp only [suggestStep, h1, h2] at hr
      exact Or.inl hr
    | some orig =>
      simp only [suggestStep, h1, h2] at hr
      by_cases h3 : orig ≠ "" ∧ orig ∉ acc
      · rw [if_pos h3] at hr
        rw [List.mem_append, List.mem_singleton] at hr
        rcases hr with hr | rfl
        · exact Or.inl hr
        · refine Or.inr ⟨h3.1, ?_⟩
          rw [Option.some_bind]
          exact h2
      · rw [if_neg h3] at hr
        exact Or.inl hr

/-- The raw snapshot used in the C8 witness and counterexample: the
table name `student` exists under two schemas, plus an unrelated
table. -/
def raw8 : Raw :=
  [("A", [("student", ["x"])]), ("B", [("student", ["x"])]), ("C", [("other", ["x"])])]

/-- Claim C8 (amended): the typeahead path scores only the bare search
key of each (searchKey, qualifiedName) candidate pair and resolves each
matched key through the key-to-qualified-name dict (last pair wins for
a duplicated key) followed by `get_original_qualified`, deduplicating
by resulting display string.  Every result is a non-empty resolution of
a search key scoring at or above the threshold, the results are
duplicate-free, and there are at MOST `limit` of them — but the limit
is applied inside the extraction BEFORE deduplication, so fewer than
`limit` results can be returned even when `limit` distinct display
strings have qualifying candidates (see `claim_C8_counterexample`). -/
theorem claim_C8_typeahead_dedup (st : IndexState) (S : Scorer) (scope q : String)
    (schema_name table_name : Option String) (threshold limit : Nat) :
    (suggestModel st S scope q schema_name table_name threshold limit).length ≤ limit ∧
    (suggestModel st S scope q schema_name table_name threshold limit).Nodup ∧
    (∀ r ∈ suggestModel st S scope q schema_name table_name threshold limit,
      r ≠ "" ∧ ∃ k,
        k ∈ (get_searchable_candidates_for_scope st scope schema_name table_name).map
          (fun c => c.1) ∧
        threshold ≤ S (pyNormalize q) k ∧
        (lookupKey ((get_searchable_candidates_for_scope st scope schema_name
            table_name).foldl (fun m c => dictSet m c.1 c.2) []) k).bind
          (fun qualified_lower => get_original_qualified st scope qualified_lower) = some r) := by
  have hrepr := suggestModel_eq_foldl st S scope q schema_name table_name threshold limit
  refine ⟨?_, ?_, ?_⟩
  · rw [hrepr]
    have h1 := foldl_length_le
      (suggestStep st scope ((get_searchable_candidates_for_scope st scope schema_name
        table_name).foldl (fun m c => dictSet m c.1 c.2) []))
      (suggestStep_length st scope _)
      (extract S (pyNormalize q) ((get_searchable_candidates_for_scope st scope schema_name
        table_name).map (fun c => c.1)) threshold limit) []
    have h2 := extract_length S (pyNormalize q)
      ((get_searchable_candidates_for_scope st scope schema_name table_name).map
        (fun c => c.1)) threshold limit
    simp only [List.length_nil, Nat.zero_add] at h1
    omega
  · rw [hrepr]
    exact foldl_nodup
      (suggestStep st scope ((get_searchable_candidates_for_scope st scope schema_name
        table_name).foldl (fun m c => dictSet m c.1 c.2) []))
      (suggestStep_nodup st scope _) _ [] List.nodup_nil
  · intro r hr
    rw [hrepr] at hr
    rcases foldl_provenance
        (suggestStep st scope ((get_searchable_candidates_for_scope st scope schema_name
          table_name).foldl (fun m c => dictSet m c.1 c.2) []))
        (fun (x : String × Nat × Nat) (r : String) => r ≠ "" ∧
          (lookupKey ((get_searchable_candidates_for_scope st scope schema_name
              table_name).foldl (fun m c => dictSet m c.1 c.2) []) x.1).bind
            (fun qualified_lower => get_original_qualified st scope qualified_lower) = some r)
        (suggestStep_provenance st scope _) _ [] r hr with h | ⟨x, hx, hne, hbind⟩
    · cases h
    · obtain ⟨hget, hsc, hcut⟩ := extract_mem hx
      refine ⟨hne, x.1, List.get?_mem hget, ?_, hbind⟩
      rw [← hsc]
      exact hcut

/-- Witness for C8: instantiating the claim at the `raw8` snapshot and
the returned display string `B.student`, with the membership hypothesis
discharged by evaluation. -/
theorem claim_C8_witness :
    ("B.student" : String) ≠ "" ∧ ∃ k,
      k ∈ (get_searchable_candidates_for_scope (buildRaw raw8) "table" none none).map
        (fun c => c.1) ∧
      50 ≤ eqScorer (pyNormalize "student") k ∧
      (lookupKey ((get_searchable_candidates_for_scope (buildRaw raw8) "table"
          none none).foldl (fun m c => dictSet m c.1 c.2) []) k).bind
        (fun qualified_lower => get_original_qualified (buildRaw raw8) "table"
          qualified_lower) = some "B.student" :=
  (claim_C8_typeahead_dedup (buildRaw raw8) eqScorer "table" "student" none none 50 2).2.2
    "B.student" (by decide)

/-- Counterexample to C8 as literally stated: with limit 2 and two
distinct display strings (`A.student`, `B.student`) both backed by
candidates scoring 100 ≥ 50, the endpoint still returns only ONE
result, because `process.extract` truncates to `limit` matches before
deduplication (both matches carry the same search key `student`, which
the key-to-qualified dict resolves to the last pair, `b.student`). -/
theorem claim_C8_counterexample :
    suggestModel (buildRaw raw8) eqScorer "table" "student" none none 50 2 =
      ["B.student"] ∧
    (suggestModel (buildRaw raw8) eqScorer "table" "student" none none 50 2).length < 2 ∧
    ("student", "a.student") ∈
      get_searchable_candidates_for_scope (buildRaw raw8) "table" none none ∧
    ("student", "b.student") ∈
      get_searchable_candidates_for_scope (buildRaw raw8) "table" none none ∧
    50 ≤ eqScorer (pyNormalize "student") "student" ∧
    get_original_qualified (buildRaw raw8) "table" "a.student" = some "A.student" ∧
    get_original_qualified (buildRaw raw8) "table" "b.student" = some "B.student" ∧
    ("A.student" : String) ≠ "B.student" := by decide
